import Mathlib

/-! # loglogger: a verification development

A shallow embedding of `main.go` (package `logger`) together with the parts of
the Go standard library it calls (`fmt`, `time`, `log`, `path/filepath`,
`runtime`, `os`), with theorems about what the logger writes and where.

Everything the logger reads from its surroundings (the clock, the call stack,
the outcome of system calls) is an explicit argument; everything it does to
its surroundings (bytes written to the log file, bytes printed, process exit,
system calls) is recorded in an explicit state.
-/

namespace LogLogger

/-! ## Decimal rendering -/

/-- The ASCII digit for `d % 10`. -/
def digitChar (d : Nat) : Char :=
  match d % 10 with
  | 0 => '0' | 1 => '1' | 2 => '2' | 3 => '3' | 4 => '4'
  | 5 => '5' | 6 => '6' | 7 => '7' | 8 => '8' | _ => '9'

/-- Decimal digits of `n`, most significant first, in front of `acc`.
The first argument bounds the number of iterations. -/
def digitsAux : Nat → Nat → List Char → List Char
  | 0, _, acc => acc
  | fuel + 1, n, acc =>
    if n < 10 then digitChar n :: acc
    else digitsAux fuel (n / 10) (digitChar n :: acc)

/-- Decimal digits of a natural number (`strconv`-style, no padding). -/
def natDigits (n : Nat) : List Char := digitsAux (n + 1) n []

/-- Decimal text of a Go `int`. -/
def intText (i : Int) : String :=
  if i < 0 then ⟨'-' :: natDigits i.natAbs⟩ else ⟨natDigits i.natAbs⟩

/-! ## Package `fmt`

Operands are strings, ints, booleans and the nil interface.  A format is
rendered by the model when each of its directives is `%%` or a bare verb
among `v`, `s`, `d`, `t`, `T` (or a lone `%` at its end); every format of
`main.go` is of this kind.  For any other format (flags, width, precision,
argument indexes, other verbs) the text is whatever the library returns,
which is taken as a parameter. -/

/-- An operand (`interface{}` value) passed to a printing function. -/
inductive Value where
  | str (s : String)
  | int (i : Int)
  | bool (b : Bool)
  | nil
  deriving DecidableEq, Repr

/-- The verbs the model renders. -/
inductive Verb where
  | v
  | s
  | d
  | t
  | T
  deriving DecidableEq, Repr

/-- The character of a verb. -/
def Verb.char : Verb → Char
  | .v => 'v'
  | .s => 's'
  | .d => 'd'
  | .t => 't'
  | .T => 'T'

/-- The verb written by a character, if the model renders it. -/
def Verb.ofChar (c : Char) : Option Verb :=
  if c = 'v' then some .v
  else if c = 's' then some .s
  else if c = 'd' then some .d
  else if c = 't' then some .t
  else if c = 'T' then some .T
  else none

/-- One item of a format: a literal character, `%%`, a bare verb, or a lone
`%` at the end of the format. -/
inductive Directive where
  | lit (c : Char)
  | percent
  | verb (vb : Verb)
  | noverb
  deriving DecidableEq, Repr

/-- The items of a format, when the model renders all of them. -/
def parseFormat : List Char → Option (List Directive)
  | [] => some []
  | c :: rest =>
    if c = '%' then
      match rest with
      | [] => some [Directive.noverb]
      | c2 :: rest2 =>
        if c2 = '%' then (parseFormat rest2).map (fun ds => Directive.percent :: ds)
        else
          match Verb.ofChar c2 with
          | some vb => (parseFormat rest2).map (fun ds => Directive.verb vb :: ds)
          | none => none
    else (parseFormat rest).map (fun ds => Directive.lit c :: ds)

/-- What the library renders for the formats the model does not render. -/
structure Lib where
  sprintf : String → List Value → String

/-- The name `reflect.TypeOf(arg).String()` reports. -/
def Value.typeName : Value → String
  | .str _ => "string"
  | .int _ => "int"
  | .bool _ => "bool"
  | .nil => "<nil>"

/-- The text the verb `v` produces for an operand. -/
def Value.text : Value → String
  | .str s => s
  | .int i => intText i
  | .bool b => if b then "true" else "false"
  | .nil => "<nil>"

/-- Whether the operand has string kind (`doPrint` spaces operands by it). -/
def Value.isString : Value → Bool
  | .str _ => true
  | _ => false

/-- Function `(*pp).badVerb`: the marker for a verb the operand does not support. -/
def badVerb (arg : Value) (verb : Verb) : String :=
  match arg with
  | .nil => "%!" ++ String.singleton verb.char ++ "(<nil>)"
  | a => "%!" ++ String.singleton verb.char ++ "(" ++ a.typeName ++ "=" ++ a.text ++ ")"

/-- Function `(*pp).printArg`: one operand rendered under one verb. -/
def printArg (arg : Value) (verb : Verb) : String :=
  match arg, verb with
  | .nil, .T => "<nil>"
  | .nil, .v => "<nil>"
  | .nil, vb => badVerb .nil vb
  | a, .T => a.typeName
  | .bool b, .t => (Value.bool b).text
  | .bool b, .v => (Value.bool b).text
  | .int i, .v => intText i
  | .int i, .d => intText i
  | .str s, .v => s
  | .str s, .s => s
  | a, vb => badVerb a vb

/-- The operands listed inside `%!(EXTRA ...)`, comma separated. -/
def extraArgs : List Value → String
  | [] => ""
  | [a] => (match a with | .nil => "<nil>" | a => a.typeName ++ "=" ++ printArg a .v)
  | a :: rest =>
    (match a with | .nil => "<nil>" | a => a.typeName ++ "=" ++ printArg a .v)
      ++ ", " ++ extraArgs rest

/-- The tail of `doPrintf`: operands left over once the format is consumed. -/
def extraSuffix (args : List Value) : String :=
  match args with
  | [] => ""
  | _ => "%!(EXTRA " ++ extraArgs args ++ ")"

/-- Function `(*pp).doPrintf` on the items of the format: a verb takes the
next operand or reports it missing; operands left at the end are reported as
extra. -/
def doPrintf : List Directive → List Value → String
  | [], args => extraSuffix args
  | .lit c :: rest, args => String.singleton c ++ doPrintf rest args
  | .percent :: rest, args => "%" ++ doPrintf rest args
  | .noverb :: rest, args => "%!(NOVERB)" ++ doPrintf rest args
  | .verb vb :: rest, [] => "%!" ++ String.singleton vb.char ++ "(MISSING)" ++ doPrintf rest []
  | .verb vb :: rest, a :: args => printArg a vb ++ doPrintf rest args

/-- Function `fmt.Sprintf`. -/
def Sprintf (lib : Lib) (format : String) (a : List Value) : String :=
  match parseFormat format.data with
  | some ds => doPrintf ds a
  | none => lib.sprintf format a

/-- Function `fmt.Errorf`; an error is represented by its message. -/
def Errorf (lib : Lib) (format : String) (a : List Value) : String := Sprintf lib format a

/-- Function `(*pp).doPrint`: operands under `%v`, a space between two
operands when neither is a string. -/
def doPrint : Bool → Bool → List Value → String
  | _, _, [] => ""
  | first, prevString, arg :: rest =>
    (if !first && !arg.isString && !prevString then " " else "")
      ++ printArg arg .v ++ doPrint false arg.isString rest

/-- Function `fmt.Sprint`. -/
def Sprint (a : List Value) : String := doPrint true false a

/-- Function `(*pp).doPrintln` without the final newline: operands under
`%v`, always a space between them. -/
def doPrintln : Bool → List Value → String
  | _, [] => ""
  | first, arg :: rest =>
    (if first then "" else " ") ++ printArg arg .v ++ doPrintln false rest

/-- Function `fmt.Sprintln`. -/
def Sprintln (a : List Value) : String := doPrintln true a ++ "\n"

/-! ## Package `time` -/

/-- A wall-clock reading (`time.Now()`), broken down into calendar fields in
the local zone. -/
structure Time where
  year : Nat
  month : Nat
  day : Nat
  hour : Nat
  minute : Nat
  second : Nat
  deriving DecidableEq, Repr

/-- Function `time.appendInt`: decimal text of `x`, zero-padded to `width`,
with the library's shortcuts for two- and four-digit fields. -/
def appendInt (x : Nat) (width : Nat) : String :=
  if width = 2 ∧ x < 100 then ⟨[digitChar (x / 10), digitChar x]⟩
  else if width = 4 ∧ x < 10000 then
    ⟨[digitChar (x / 1000), digitChar (x / 100), digitChar (x / 10), digitChar x]⟩
  else ⟨List.replicate (width - (natDigits x).length) '0' ++ natDigits x⟩

/-- Method `Time.Format` on the characters of the layout, for layouts built
from the reference chunks `2006`, `01`, `02`, `15`, `04`, `05` and literal
punctuation (the two layouts of `main.go` are of this kind). -/
def formatLayout (t : Time) : List Char → String
  | '2' :: '0' :: '0' :: '6' :: rest => appendInt t.year 4 ++ formatLayout t rest
  | '0' :: '1' :: rest => appendInt t.month 2 ++ formatLayout t rest
  | '0' :: '2' :: rest => appendInt t.day 2 ++ formatLayout t rest
  | '1' :: '5' :: rest => appendInt t.hour 2 ++ formatLayout t rest
  | '0' :: '4' :: rest => appendInt t.minute 2 ++ formatLayout t rest
  | '0' :: '5' :: rest => appendInt t.second 2 ++ formatLayout t rest
  | c :: rest => String.singleton c ++ formatLayout t rest
  | [] => ""

/-- Method `Time.Format`. -/
def Time.Format (t : Time) (layout : String) : String := formatLayout t layout.data

/-! ## Open files -/

/-- Flag `os.O_WRONLY`. -/
def O_WRONLY : Nat := 0x1
/-- Flag `os.O_CREATE`. -/
def O_CREATE : Nat := 0x40
/-- Flag `os.O_TRUNC`. -/
def O_TRUNC : Nat := 0x200
/-- Flag `os.O_APPEND`. -/
def O_APPEND : Nat := 0x400

/-- An open file (`*os.File`): its path and the flags it was opened with. -/
structure File where
  path : String
  flag : Nat
  deriving DecidableEq, Repr

/-! ## Package `log` -/

/-- Flag `log.Ldate`. -/
def Ldate : Nat := 1
/-- Flag `log.Ltime`. -/
def Ltime : Nat := 2
/-- Flag `log.Lmsgprefix`. -/
def Lmsgprefix : Nat := 64
/-- Flag `log.LstdFlags`, the initial values of the standard logger. -/
def LstdFlags : Nat := Ldate ||| Ltime

/-- A `log.Logger`: its writer, the text put in front of every record and
the header flags. -/
structure StdLogger where
  out : File
  pfx : String
  flag : Nat
  deriving DecidableEq, Repr

/-- The loop of `log.itoa`: digits of `i`, zero-padded to `wid`, in front of
`acc`.  The first argument bounds the number of iterations. -/
def itoaLoop : Nat → Nat → Nat → List Char → List Char
  | 0, i, _, acc => digitChar i :: acc
  | fuel + 1, i, wid, acc =>
    if i ≥ 10 ∨ wid > 1 then itoaLoop fuel (i / 10) (wid - 1) (digitChar i :: acc)
    else digitChar i :: acc

/-- Function `log.itoa`: fixed-width decimal. -/
def itoa (i : Nat) (wid : Nat) : String := ⟨itoaLoop (i + wid) i wid []⟩

/-- Function `log.formatHeader` for the date, time and message-prefix flags
(the microsecond, file and UTC flags are never set by `New`). -/
def formatHeader (t : Time) (pfx : String) (flag : Nat) : String :=
  (if flag &&& Lmsgprefix = 0 then pfx else "")
    ++ (if flag &&& Ldate ≠ 0 then
          itoa t.year 4 ++ "/" ++ itoa t.month 2 ++ "/" ++ itoa t.day 2 ++ " "
        else "")
    ++ (if flag &&& Ltime ≠ 0 then
          itoa t.hour 2 ++ ":" ++ itoa t.minute 2 ++ ":" ++ itoa t.second 2 ++ " "
        else "")
    ++ (if flag &&& Lmsgprefix ≠ 0 then pfx else "")

/-- The newline `(*log.Logger).output` adds when the buffer lacks one. -/
def ensureNewline (buf : String) : String :=
  if buf.data.getLast? = some '\n' then buf else buf ++ "\n"

/-- Method `(*log.Logger).output`: the bytes handed to the writer for the
message `s` at clock reading `now`. -/
def StdLogger.output (lg : StdLogger) (now : Time) (s : String) : String :=
  ensureNewline (formatHeader now lg.pfx lg.flag ++ s)

/-- Function `log.New`. -/
def logNew (out : File) (pfx : String) (flag : Nat) : StdLogger := ⟨out, pfx, flag⟩

/-! ## Package `path/filepath` (Unix) -/

/-- A path split at every separator; never empty. -/
def splitSep : List Char → List (List Char)
  | [] => [[]]
  | c :: cs =>
    if c = '/' then [] :: splitSep cs
    else
      match splitSep cs with
      | [] => [[c]]
      | h :: t => (c :: h) :: t

/-- Path elements joined with separators. -/
def joinSep : List (List Char) → List Char
  | [] => []
  | [e] => e
  | e :: es => e ++ '/' :: joinSep es

/-- One step of `Clean` over the elements kept so far (innermost first):
empty and `.` elements are dropped, `..` removes the element before it, or is
kept at the front of a relative path, or is dropped at the root. -/
def cleanStep (rooted : Bool) (kept : List (List Char)) (e : List Char) : List (List Char) :=
  if e = [] ∨ e = ['.'] then kept
  else if e = ['.', '.'] then
    match kept with
    | [] => if rooted then [] else [e]
    | top :: below => if top = ['.', '.'] then e :: kept else below
  else e :: kept

/-- Function `filepath.Clean` on characters. -/
def cleanChars (path : List Char) : List Char :=
  if path = [] then ['.']
  else
    let rooted := path.head? = some '/'
    let kept := (splitSep path).foldl (cleanStep rooted) []
    if rooted then '/' :: joinSep kept.reverse
    else if kept = [] then ['.'] else joinSep kept.reverse

/-- Function `filepath.Clean`. -/
def Clean (path : String) : String := ⟨cleanChars path.data⟩

/-- Function `strings.Join` with the path separator. -/
def joinStrings : List String → String
  | [] => ""
  | [e] => e
  | e :: es => e ++ "/" ++ joinStrings es

/-- Function `filepath.Join`: leading empty elements are ignored, the rest is
joined and cleaned. -/
def Join : List String → String
  | [] => ""
  | e :: es => if e = "" then Join es else Clean (joinStrings (e :: es))

/-- Function `filepath.Base`: the last element of the path. -/
def Base (path : String) : String :=
  if path = "" then "."
  else
    let stripped := (path.data.reverse.dropWhile (fun c => c = '/')).reverse
    let last := (stripped.reverse.takeWhile (fun c => c ≠ '/')).reverse
    if last = [] then "/" else ⟨last⟩

/-! ## Package `runtime` -/

/-- A frame of the call stack: the source file and the line being executed
(for a frame that is not innermost, the line of its pending call). -/
structure Frame where
  file : String
  line : Nat
  deriving DecidableEq, Repr

/-- Function `runtime.Caller` seen from the stack of the goroutine, innermost
frame first: `skip = 0` is the function calling `Caller`. -/
def Caller (skip : Nat) (stack : List Frame) : Option Frame := stack[skip]?

/-! ## The process and its surroundings -/

/-- What a logging call does to its surroundings, in order of occurrence. -/
inductive Effect where
  | lock
  | unlock
  | fileWrite (data : String) (ok : Bool)
  | stdout (data : String)
  | exit (code : Nat)
  deriving DecidableEq, Repr

/-- The observable state of the process: the content of the one file it has
open (the log file) and the offset of that open file, what has been printed
to standard output, the effects so far, and the exit status once the process
has terminated. -/
structure World where
  file : String
  pos : Nat
  stdout : String
  trace : List Effect
  exited : Option Nat
  deriving DecidableEq, Repr

/-- What one logging call reads from its surroundings: the clock reading
taken by `formatLog`, the clock reading taken afterwards by the `log.Logger`,
the path of `main.go` recorded in the binary, the call stack at the call of
the public method (innermost first, so its head is the call site in user
code), whether the write to the log file succeeds, and the library's
rendering of the formats the model does not render. -/
structure Env where
  now : Time
  logNow : Time
  self : String
  callers : List Frame
  writeOk : Bool
  lib : Lib

/-- Record one effect. -/
def World.emit (w : World) (e : Effect) : World := { w with trace := w.trace ++ [e] }

/-- Method `(*os.File).Write` on the log file.  A write that fails leaves
the file as it was.  A file opened with `O_APPEND` takes every write at its
end; otherwise the write goes to the offset of the open file, over what is
there (and after a gap of zero bytes when the offset lies past the end). -/
def File.Write (f : File) (ok : Bool) (b : String) (w : World) : World :=
  let w := { w with trace := w.trace ++ [Effect.fileWrite b ok] }
  if ok then
    if f.flag &&& O_APPEND ≠ 0 then
      { w with file := w.file ++ b, pos := (w.file ++ b).length }
    else
      { w with file := ⟨w.file.data.take w.pos
                  ++ List.replicate (w.pos - w.file.length) (Char.ofNat 0)
                  ++ b.data ++ w.file.data.drop (w.pos + b.length)⟩,
               pos := w.pos + b.length }
  else w

/-- Method `(*log.Logger).Print`: the operands are rendered by `fmt.Sprint`
and the record is written to the writer; the error of the write is
dropped. -/
def StdLogger.Print (lg : StdLogger) (env : Env) (v : List Value) (w : World) : World :=
  lg.out.Write env.writeOk (lg.output env.logNow (Sprint v)) w

/-- Function `fmt.Println` to standard output. -/
def Println (v : List Value) (w : World) : World :=
  { w with stdout := w.stdout ++ Sprintln v, trace := w.trace ++ [Effect.stdout (Sprintln v)] }

/-- Function `os.Exit`: the process terminates with the given status. -/
def osExit (code : Nat) (w : World) : World :=
  { w with exited := some code, trace := w.trace ++ [Effect.exit code] }

/-! ## Package `os` -/

/-- The outcome the operating system gives to the system calls of `New`: the
working directory or the error of `os.Getwd`, and for each path the error of
`os.MkdirAll` and of `os.OpenFile` if they fail there.  An error is
represented by its message, which is what the verb `v` prints for it. -/
structure OS where
  getwd : Except String String
  mkdirAll : String → Option String
  openFile : String → Option String

/-- A system call as issued. -/
inductive Syscall where
  | getwd
  | mkdirAll (path : String) (perm : Nat)
  | openFile (path : String) (flag : Nat) (perm : Nat)
  deriving DecidableEq, Repr

/-- The file system (directories, and files with their content) and the
system calls issued so far. -/
structure Host where
  dirs : List String
  files : List (String × String)
  calls : List Syscall
  deriving DecidableEq, Repr

/-- Function `os.Getwd`. -/
def Getwd (os : OS) (h : Host) : Except String String × Host :=
  (os.getwd, { h with calls := h.calls ++ [Syscall.getwd] })

/-- Function `os.MkdirAll`: on success the directory exists afterwards; on
failure nothing is recorded as created. -/
def MkdirAll (os : OS) (path : String) (perm : Nat) (h : Host) : Option String × Host :=
  let h := { h with calls := h.calls ++ [Syscall.mkdirAll path perm] }
  match os.mkdirAll path with
  | some err => (some err, h)
  | none => (none, if path ∈ h.dirs then h else { h with dirs := h.dirs ++ [path] })

/-- Function `os.OpenFile`: on success the open file carries its flags; a
file that exists keeps its content unless `O_TRUNC` is set, and a missing
file is created empty when `O_CREATE` is set and is an error otherwise. -/
def OpenFile (os : OS) (path : String) (flag : Nat) (perm : Nat) (h : Host) :
    Except String File × Host :=
  let h := { h with calls := h.calls ++ [Syscall.openFile path flag perm] }
  match os.openFile path with
  | some err => (.error err, h)
  | none =>
    if (h.files.map Prod.fst).contains path then
      (.ok ⟨path, flag⟩,
       if flag &&& O_TRUNC ≠ 0 then
         { h with files := h.files.map (fun f => if f.1 = path then (f.1, "") else f) }
       else h)
    else if flag &&& O_CREATE ≠ 0 then
      (.ok ⟨path, flag⟩, { h with files := h.files ++ [(path, "")] })
    else (.error ("open " ++ path ++ ": no such file or directory"), h)

/-- The content of the file at a path, empty when there is none. -/
def Host.content (h : Host) (path : String) : String :=
  match h.files.find? (fun f => f.1 = path) with
  | some f => f.2
  | none => ""

/-- The process once a file has been opened: the log file holds what the file
system holds at the path of the open file, the offset is at the start,
nothing has been printed. -/
def World.start (h : Host) (f : File) : World := ⟨h.content f.path, 0, "", [], none⟩

/-! ## `main.go` -/

/-- The `Logger` struct: the open file, the wrapped `log.Logger` and the
path of the file; the mutex shows as lock effects. -/
structure Logger where
  file : File
  logger : StdLogger
  filepath : String
  deriving DecidableEq, Repr

/-- Function `New`, given the outcomes of its system calls and the clock
reading it takes. -/
def New (lib : Lib) (os : OS) (now : Time) (filename : String) (h : Host) :
    Except String Logger × Host :=
  let filename := if filename = "" then "application.log" else filename
  match Getwd os h with
  | (.error err, h) =>
    (.error (Errorf lib "Failed to get working directory: %v" [.str err]), h)
  | (.ok wd, h) =>
    let logsDir := Join [wd, "logs"]
    match MkdirAll os logsDir 0o755 h with
    | (some err, h) => (.error (Errorf lib "Error creating logs directory: %v" [.str err]), h)
    | (none, h) =>
      let currentTime := now
      let dateDir := currentTime.Format "2006-01-02"
      let datePath := Join [logsDir, dateDir]
      match MkdirAll os datePath 0o755 h with
      | (some err, h) =>
        (.error (Errorf lib "Failed to create date directory: %v" [.str err]), h)
      | (none, h) =>
        let fullPath := Join [datePath, filename]
        match OpenFile os fullPath (O_APPEND ||| O_CREATE ||| O_WRONLY) 0o644 h with
        | (.error err, h) => (.error (Errorf lib "Failed to open log file: %v" [.str err]), h)
        | (.ok file, h) =>
          let logger := logNew file "" LstdFlags
          (.ok { file := file, logger := logger, filepath := fullPath }, h)

/-- Function `getCallerInfo` (its call of `runtime.Caller` is on line 72),
given the stack at its own call site. -/
def getCallerInfo (lib : Lib) (self : String) (stack : List Frame) : String :=
  match Caller 2 (⟨self, 72⟩ :: stack) with
  | none => "unknown:0"
  | some f => Sprintf lib "%s:%d" [.str (Base f.file), .int f.line]

/-- Function `formatLog` (its call of `getCallerInfo` is on line 82), given
the stack at its own call site. -/
def formatLog (env : Env) (stack : List Frame) (format : String) (v : List Value) : String :=
  let timestamp := env.now.Format "2006-01-02 15:04:05"
  let callerInfo := getCallerInfo env.lib env.self (⟨env.self, 82⟩ :: stack)
  let message := Sprintf env.lib format v
  Sprintf env.lib "[%s] [%s] %s" [.str timestamp, .str callerInfo, .str message]

/-- Method `Logger.Print` (calls `formatLog` on line 92). -/
def Logger.Print (l : Logger) (env : Env) (v : List Value) (w : World) : World :=
  let w := w.emit .lock
  let msg := formatLog env (⟨env.self, 92⟩ :: env.callers) "%v" v
  let w := l.logger.Print env [.str msg] w
  let w := Println [.str msg] w
  w.emit .unlock

/-- Method `Logger.Printf` (calls `formatLog` on line 102). -/
def Logger.Printf (l : Logger) (env : Env) (format : String) (v : List Value) (w : World) :
    World :=
  let w := w.emit .lock
  let msg := formatLog env (⟨env.self, 102⟩ :: env.callers) format v
  let w := l.logger.Print env [.str msg] w
  let w := Println [.str msg] w
  w.emit .unlock

/-- Method `Logger.Fatal` (calls `formatLog` on line 112); the deferred
unlock never runs because `os.Exit` does not return. -/
def Logger.Fatal (l : Logger) (env : Env) (v : List Value) (w : World) : World :=
  let w := w.emit .lock
  let msg := formatLog env (⟨env.self, 112⟩ :: env.callers) "%v" v
  let w := l.logger.Print env [.str msg] w
  let w := Println [.str msg] w
  osExit 1 w

/-- Method `Logger.Fatalf` (calls `formatLog` on line 123). -/
def Logger.Fatalf (l : Logger) (env : Env) (format : String) (v : List Value) (w : World) :
    World :=
  let w := w.emit .lock
  let msg := formatLog env (⟨env.self, 123⟩ :: env.callers) format v
  let w := l.logger.Print env [.str msg] w
  let w := Println [.str msg] w
  osExit 1 w

/-- Method `Logger.Sprint`. -/
def Logger.Sprint (_l : Logger) (v : List Value) : String := LogLogger.Sprint v

/-- Method `Logger.Sprintf`. -/
def Logger.Sprintf (_l : Logger) (lib : Lib) (format : String) (v : List Value) : String :=
  LogLogger.Sprintf lib format v

/-- Method `Logger.Error` (calls `formatLog` on line 144). -/
def Logger.Error (l : Logger) (env : Env) (v : List Value) (w : World) : World :=
  let w := w.emit .lock
  let msg := formatLog env (⟨env.self, 144⟩ :: env.callers) "[ERROR] %v" v
  let w := l.logger.Print env [.str msg] w
  let w := Println [.str msg] w
  w.emit .unlock

/-- Method `Logger.Errorf` (calls `formatLog` on line 154). -/
def Logger.Errorf (l : Logger) (env : Env) (format : String) (v : List Value) (w : World) :
    World :=
  let w := w.emit .lock
  let userMsg := LogLogger.Sprintf env.lib format v
  let msg := formatLog env (⟨env.self, 154⟩ :: env.callers) "[ERROR] %s" [.str userMsg]
  let w := l.logger.Print env [.str msg] w
  let w := Println [.str msg] w
  w.emit .unlock

/-- A call of one of the six logging methods. -/
inductive Call where
  | print (v : List Value)
  | printf (format : String) (v : List Value)
  | error (v : List Value)
  | errorf (format : String) (v : List Value)
  | fatal (v : List Value)
  | fatalf (format : String) (v : List Value)
  deriving DecidableEq, Repr

/-- Dispatch of a call to its method. -/
def Logger.exec (l : Logger) (env : Env) (c : Call) (w : World) : World :=
  match c with
  | .print v => l.Print env v w
  | .printf f v => l.Printf env f v w
  | .error v => l.Error env v w
  | .errorf f v => l.Errorf env f v w
  | .fatal v => l.Fatal env v w
  | .fatalf f v => l.Fatalf env f v w

/-- A straight-line program of logging calls, each with what it reads from
its surroundings: calls run in order until the process has terminated. -/
def Logger.run (l : Logger) : List (Env × Call) → World → World
  | [], w => w
  | (env, c) :: rest, w =>
    let w := l.exec env c w
    match w.exited with
    | some _ => w
    | none => l.run rest w

/-! ## Descriptions used in the statements -/

/-- The line of `main.go` on which each method calls `formatLog`. -/
def Call.site : Call → Nat
  | .print _ => 92
  | .printf _ _ => 102
  | .error _ => 144
  | .errorf _ _ => 154
  | .fatal _ => 112
  | .fatalf _ _ => 123

/-- The message part of the line of a call: the rendered operands, after the
tag `[ERROR] ` for the error variants. -/
def Call.message (c : Call) (lib : Lib) : String :=
  match c with
  | .print v => Sprintf lib "%v" v
  | .printf f v => Sprintf lib f v
  | .error v => "[ERROR] " ++ Sprintf lib "%v" v
  | .errorf f v => "[ERROR] " ++ Sprintf lib f v
  | .fatal v => Sprintf lib "%v" v
  | .fatalf f v => Sprintf lib f v

/-- Whether the call terminates the process. -/
def Call.isFatal : Call → Bool
  | .fatal _ => true
  | .fatalf _ _ => true
  | _ => false

/-- The text `[<timestamp>] [<tag>] ` in front of every message. -/
def lineHead (now : Time) (tag : String) : String :=
  "[" ++ now.Format "2006-01-02 15:04:05" ++ "] [" ++ tag ++ "] "

/-- The caller tag every call of a method ends up with: the base name of
`main.go` and the line of the method's own call to `formatLog`. -/
def Call.tag (self : String) (c : Call) : String := Base self ++ ":" ++ intText c.site

/-- The composed line of a call. -/
def composedLine (env : Env) (c : Call) : String :=
  lineHead env.now (c.tag env.self) ++ c.message env.lib

/-- The header of a `log.Logger` with the standard flags and no prefix. -/
def stdHeader (t : Time) : String :=
  itoa t.year 4 ++ "/" ++ itoa t.month 2 ++ "/" ++ itoa t.day 2 ++ " "
    ++ itoa t.hour 2 ++ ":" ++ itoa t.minute 2 ++ ":" ++ itoa t.second 2 ++ " "

/-- Number of newline characters of a text. -/
def newlines (s : String) : Nat := s.data.count '\n'

/-- A clock reading whose fields have the width of their layout chunks. -/
def Time.wellFormed (t : Time) : Prop :=
  t.year ≤ 9999 ∧ t.month ≤ 12 ∧ t.day ≤ 31 ∧ t.hour ≤ 23 ∧ t.minute ≤ 59 ∧ t.second ≤ 59

instance (t : Time) : Decidable t.wellFormed := by
  unfold Time.wellFormed; infer_instance

/-- The effects of one logging call that emits `line` on a logger built by
`New`: the lock, the write to the file of the line behind the logger header
for the clock reading `t` (a newline added unless the line ends in one), the
print of the line and a newline, and a last effect. -/
def effectsWith (t : Time) (ok : Bool) (line : String) (last : Effect) : List Effect :=
  [Effect.lock, Effect.fileWrite (ensureNewline (stdHeader t ++ line)) ok,
   Effect.stdout (line ++ "\n"), last]

/-- The ASCII decimal digit of `n % 10`. -/
def decimalDigit (n : Nat) : Char := Char.ofNat (48 + n % 10)

/-- The 19 characters `YYYY-MM-DD HH:MM:SS` of a clock reading. -/
def timestampOf (t : Time) : String :=
  ⟨[decimalDigit (t.year / 1000), decimalDigit (t.year / 100), decimalDigit (t.year / 10),
    decimalDigit t.year, '-', decimalDigit (t.month / 10), decimalDigit t.month, '-',
    decimalDigit (t.day / 10), decimalDigit t.day, ' ',
    decimalDigit (t.hour / 10), decimalDigit t.hour, ':',
    decimalDigit (t.minute / 10), decimalDigit t.minute, ':',
    decimalDigit (t.second / 10), decimalDigit t.second]⟩

/-- The name `New` uses: the given one, or `application.log` for the empty
name. -/
def fileName (filename : String) : String :=
  if filename = "" then "application.log" else filename

/-- The logs directory `New` creates under the working directory. -/
def logsDirOf (wd : String) : String := Join [wd, "logs"]

/-- The date directory `New` creates under the logs directory. -/
def datePathOf (wd : String) (now : Time) : String :=
  Join [logsDirOf wd, now.Format "2006-01-02"]

/-- The path `New` opens. -/
def fullPathOf (wd : String) (now : Time) (filename : String) : String :=
  Join [datePathOf wd now, fileName filename]

/-- The logger `New` returns for the path it has opened: the file opened for
appending (created if missing, never truncated), a `log.Logger` writing to it
with no prefix and the standard flags, and the path. -/
def loggerAt (path : String) : Logger :=
  { file := ⟨path, O_APPEND ||| O_CREATE ||| O_WRONLY⟩,
    logger := logNew ⟨path, O_APPEND ||| O_CREATE ||| O_WRONLY⟩ "" LstdFlags,
    filepath := path }

/-- The directories after a successful `MkdirAll`. -/
def withDir (dirs : List String) (path : String) : List String :=
  if path ∈ dirs then dirs else dirs ++ [path]

/-- The files after a successful `OpenFile` with `O_CREATE` and without
`O_TRUNC`. -/
def withFile (files : List (String × String)) (path : String) : List (String × String) :=
  if (files.map Prod.fst).contains path then files else files ++ [(path, "")]

/-- A single path element that `Clean` keeps as it is: not empty, without a
separator, and neither `.` nor `..`. -/
def Simple (e : List Char) : Prop := e ≠ [] ∧ '/' ∉ e ∧ e ≠ ['.'] ∧ e ≠ ['.', '.']

instance (e : List Char) : Decidable (Simple e) := by
  unfold Simple; infer_instance

/-- The elements `Clean` has kept (innermost first) are in normal form: no
empty element, no separator, no `.`, and `..` only at the front of a relative
path. -/
def Kept (rooted : Bool) : List (List Char) → Prop
  | [] => True
  | e :: below =>
    (e ≠ [] ∧ '/' ∉ e ∧ e ≠ ['.'])
      ∧ (e = ['.', '.'] → (below = [] ∧ rooted = false) ∨ below.head? = some ['.', '.'])
      ∧ Kept rooted below

/-- The text `Clean` returns for the elements it has kept. -/
def render (rooted : Bool) (kept : List (List Char)) : List Char :=
  if rooted then '/' :: joinSep kept.reverse
  else if kept = [] then ['.'] else joinSep kept.reverse

/-- A cleaned path with at least one element kept. -/
def OpenPath (p : List Char) : Prop :=
  ∃ rooted kept, Kept rooted kept ∧ kept ≠ [] ∧ p = render rooted kept

/-! ## Sample surroundings -/

/-- A stand-in for the library on the formats the model does not render; no
format used below is of that kind. -/
def sampleLib : Lib := ⟨fun format _ => format⟩

/-- A clock reading: 2 January 2024, 03:04:05. -/
def sampleTime : Time := ⟨2024, 1, 2, 3, 4, 5⟩

/-- An operating system on which every system call of `New` succeeds, with
working directory `/app`. -/
def sampleOS : OS := ⟨.ok "/app", fun _ => none, fun _ => none⟩

/-- An operating system on which the date directory cannot be created. -/
def denyingOS : OS :=
  ⟨.ok "/app",
   fun p => if p = "/app/logs/2024-01-02" then some "mkdir /app/logs/2024-01-02: permission denied"
            else none,
   fun _ => none⟩

/-- A file system holding only the working directory. -/
def sampleHost : Host := ⟨["/app"], [], []⟩

/-- A file system on which the log file of `sampleLogger` already holds one
line. -/
def usedHost : Host :=
  ⟨["/app", "/app/logs", "/app/logs/2024-01-02"], [("/app/logs/2024-01-02/app.log", "old\n")], []⟩

/-- The logger `New` builds on `sampleOS` for the name `app.log`. -/
def sampleLogger : Logger :=
  ⟨⟨"/app/logs/2024-01-02/app.log", O_APPEND ||| O_CREATE ||| O_WRONLY⟩,
   logNew ⟨"/app/logs/2024-01-02/app.log", O_APPEND ||| O_CREATE ||| O_WRONLY⟩ "" LstdFlags,
   "/app/logs/2024-01-02/app.log"⟩

/-- A call from line 10 of the user file `server.go`, the logger source being
`/go/src/loglogger/main.go`, with a working log file. -/
def sampleEnv : Env :=
  ⟨sampleTime, sampleTime, "/go/src/loglogger/main.go", [⟨"/home/u/app/server.go", 10⟩], true,
   sampleLib⟩

/-- The same call with a failing write to the log file. -/
def failingEnv : Env := { sampleEnv with writeOk := false }

/-- A process that has logged nothing yet, its log file empty. -/
def sampleWorld : World := ⟨"", 0, "", [], none⟩

/-- A clock reading in the year 10000. -/
def lateTime : Time := ⟨10000, 1, 2, 3, 4, 5⟩

/-- The sample call at the clock reading `lateTime`. -/
def lateEnv : Env := { sampleEnv with now := lateTime }

/-! ## Goroutines sharing one logger -/

/-- One atomic step of a goroutine: taking or releasing the mutex of the
logger, one character reaching the log file or standard output, or the exit
of the process. -/
inductive Step where
  | acquire
  | release
  | fileChar (c : Char)
  | outChar (c : Char)
  | exit (code : Nat)
  deriving DecidableEq, Repr

/-- Whether a step puts a character into a sink. -/
def Step.isWrite : Step → Bool
  | .fileChar _ => true
  | .outChar _ => true
  | _ => false

/-- What a step does to the world; `f` is the open log file. -/
def Step.apply (f : File) (st : Step) (w : World) : World :=
  match st with
  | .acquire => w.emit .lock
  | .release => w.emit .unlock
  | .fileChar c => f.Write true (String.singleton c) w
  | .outChar c =>
    { w with stdout := w.stdout ++ String.singleton c,
             trace := w.trace ++ [Effect.stdout (String.singleton c)] }
  | .exit code => osExit code w

/-- What a run of steps by one goroutine, undisturbed, does to the world. -/
def applySteps (f : File) (steps : List Step) (w : World) : World :=
  steps.foldl (fun w st => st.apply f w) w

/-- The steps in which an effect takes place: a write reaches its sink one
character at a time, and a failed write leaves nothing. -/
def Effect.steps : Effect → List Step
  | .lock => [Step.acquire]
  | .unlock => [Step.release]
  | .fileWrite data ok => if ok then data.data.map Step.fileChar else []
  | .stdout data => data.data.map Step.outChar
  | .exit code => [Step.exit code]

/-- The steps of a list of effects, in order. -/
def stepsOf : List Effect → List Step
  | [] => []
  | e :: es => e.steps ++ stepsOf es

/-- The steps of a goroutine that makes one call of `Print`: the effects
`Logger.Print` has, in the order in which it has them. -/
def printSteps (l : Logger) (call : Env × List Value) : List Step :=
  stepsOf (l.Print call.1 call.2 ⟨"", 0, "", [], none⟩).trace

/-- The goroutines of a process: the world they share, whether the mutex of
the logger is locked, and the steps each goroutine has still to take. -/
structure Conc where
  world : World
  locked : Bool
  threads : List (List Step)
  deriving DecidableEq, Repr

/-- Goroutine `i` takes its next step, if it can: a goroutine that has
finished takes none, taking the mutex waits while it is locked, releasing an
unlocked mutex is an error, and nothing runs once the process has exited. -/
def Conc.step (f : File) (i : Nat) (s : Conc) : Option Conc :=
  match s.world.exited with
  | some _ => none
  | none =>
    match s.threads[i]? with
    | some (st :: rest) =>
      if (st = Step.acquire ∧ s.locked = true) ∨ (st = Step.release ∧ s.locked = false) then
        none
      else
        some ⟨st.apply f s.world,
              if st = Step.acquire then true else if st = Step.release then false else s.locked,
              s.threads.set i rest⟩
    | _ => none

/-- A schedule names the goroutine that takes each step in turn; it runs as
long as the named goroutine can take its step. -/
def Conc.run (f : File) : List Nat → Conc → Option Conc
  | [], s => some s
  | i :: rest, s =>
    match s.step f i with
    | some s' => Conc.run f rest s'
    | none => none

/-- Every goroutine has taken all its steps. -/
def Conc.finished (s : Conc) : Bool := s.threads.all (fun p => p.isEmpty)

/-- Number of steps the goroutines have still to take. -/
def Conc.remaining (s : Conc) : Nat := (s.threads.map List.length).sum

/-- Texts one after the other. -/
def concat : List String → String
  | [] => ""
  | s :: rest => s ++ concat rest

/-- What a call of `Print` on a logger built by `New` leaves in the log
file: the record of its composed line (logger header, line, newline) when the
write succeeds, nothing when it fails. -/
def fileRecordOf (call : Env × List Value) : String :=
  if call.1.writeOk then
    ensureNewline (stdHeader call.1.logNow ++ composedLine call.1 (.print call.2))
  else ""

/-- What a call of `Print` leaves on standard output: its composed line and
a newline. -/
def consoleLineOf (call : Env × List Value) : String :=
  composedLine call.1 (.print call.2) ++ "\n"

/-- The steps of a goroutine that holds the mutex while it takes the steps
of `body`. -/
def wrap (body : List Step) : List Step := Step.acquire :: (body ++ [Step.release])

/-- The steps between taking and releasing the mutex in a call of `Print`. -/
def printBody (call : Env × List Value) : List Step :=
  (fileRecordOf call).data.map Step.fileChar ++ (consoleLineOf call).data.map Step.outChar

/-- The world after the goroutines listed in `fin` have run one after the
other, each from taking the mutex to releasing it. -/
def serial (f : File) (bodies : List (List Step)) (fin : List Nat) (w0 : World) : World :=
  fin.foldl (fun w j => applySteps f (wrap ((bodies[j]?).getD [])) w) w0

/-- The goroutines run one at a time: the goroutines in `fin` have finished,
in this order, and either the mutex is free and every other goroutine has yet
to start, or the mutex is locked and exactly one other goroutine is between
taking and releasing it. -/
def Serialized (f : File) (bodies : List (List Step)) (w0 : World) (s : Conc) : Prop :=
  ∃ fin : List Nat, fin.Nodup ∧ (∀ j ∈ fin, j < bodies.length) ∧
    ((s.locked = false ∧ s.world = serial f bodies fin w0
        ∧ ∀ j, s.threads[j]? = (bodies[j]?).map (fun b => if j ∈ fin then [] else wrap b))
      ∨ (s.locked = true ∧ ∃ i b rem, bodies[i]? = some b ∧ i ∉ fin
          ∧ (∀ st ∈ rem, st.isWrite = true)
          ∧ s.threads[i]? = some (rem ++ [Step.release])
          ∧ applySteps f (rem ++ [Step.release]) s.world
              = applySteps f (wrap b) (serial f bodies fin w0)
          ∧ ∀ j, j ≠ i →
              s.threads[j]? = (bodies[j]?).map (fun b => if j ∈ fin then [] else wrap b)))

/-- Two goroutines, each printing once: `a` and `b`. -/
def sampleCalls : List (Env × List Value) := [(sampleEnv, [.str "a"]), (sampleEnv, [.str "b"])]

/-- The two goroutines before either has taken a step. -/
def sampleStart : Conc := ⟨sampleWorld, false, sampleCalls.map (printSteps sampleLogger)⟩

/-- A schedule in which the second goroutine takes all its steps and then the
first takes all of its own. -/
def sampleSchedule : List Nat :=
  List.replicate (printSteps sampleLogger (sampleEnv, [.str "b"])).length 1
    ++ List.replicate (printSteps sampleLogger (sampleEnv, [.str "a"])).length 0

/-- The goroutines after `sampleSchedule`. -/
def sampleFinal : Conc :=
  (Conc.run sampleLogger.file sampleSchedule sampleStart).getD sampleStart

/-- Two goroutines, the first printing a message of two lines. -/
def newlineCalls : List (Env × List Value) :=
  [(sampleEnv, [.str "x\ny"]), (sampleEnv, [.str "z"])]

/-- A schedule for `newlineCalls`: the first goroutine, then the second. -/
def newlineSchedule : List Nat :=
  List.replicate (printSteps sampleLogger (sampleEnv, [.str "x\ny"])).length 0
    ++ List.replicate (printSteps sampleLogger (sampleEnv, [.str "z"])).length 1

/-! ## Lemmas on the library model -/

theorem Sprint_str (s : String) : Sprint [.str s] = s := by
  apply String.ext
  simp [Sprint, doPrint, printArg, Value.isString, String.data_append]

theorem Sprintln_str (s : String) : Sprintln [.str s] = s ++ "\n" := by
  apply String.ext
  simp [Sprintln, doPrintln, printArg, String.data_append]

theorem Sprintf_simple (lib : Lib) (format : String) (a : List Value) (ds : List Directive)
    (h : parseFormat format.data = some ds) : Sprintf lib format a = doPrintf ds a := by
  simp [Sprintf, h]

theorem Sprintf_line (lib : Lib) (a b c : String) :
    Sprintf lib "[%s] [%s] %s" [.str a, .str b, .str c]
      = "[" ++ a ++ "] [" ++ b ++ "] " ++ c := by
  rw [Sprintf_simple lib _ _ _ (by rfl)]
  apply String.ext
  simp [doPrintf, printArg, extraSuffix, String.data_append]

theorem Sprintf_error_s (lib : Lib) (s : String) :
    Sprintf lib "[ERROR] %s" [.str s] = "[ERROR] " ++ s := by
  rw [Sprintf_simple lib _ _ _ (by rfl)]
  apply String.ext
  simp [doPrintf, printArg, extraSuffix, String.data_append]

theorem Sprintf_error_v (lib : Lib) (v : List Value) :
    Sprintf lib "[ERROR] %v" v = "[ERROR] " ++ Sprintf lib "%v" v := by
  rw [Sprintf_simple lib "[ERROR] %v" _ _ (by rfl), Sprintf_simple lib "%v" _ _ (by rfl)]
  apply String.ext
  simp [doPrintf, String.data_append]

theorem Sprintf_tag (lib : Lib) (file : String) (line : Nat) :
    Sprintf lib "%s:%d" [.str file, .int line] = file ++ ":" ++ intText line := by
  rw [Sprintf_simple lib _ _ _ (by rfl)]
  apply String.ext
  simp [doPrintf, printArg, extraSuffix, String.data_append]

theorem getCallerInfo_method (lib : Lib) (self : String) (site : Nat) (callers : List Frame) :
    getCallerInfo lib self (⟨self, 82⟩ :: ⟨self, site⟩ :: callers)
      = Base self ++ ":" ++ intText site := by
  simp [getCallerInfo, Caller, Sprintf_tag]

theorem formatLog_eq (env : Env) (stack : List Frame) (format : String) (v : List Value) :
    formatLog env stack format v
      = "[" ++ env.now.Format "2006-01-02 15:04:05" ++ "] ["
          ++ getCallerInfo env.lib env.self (⟨env.self, 82⟩ :: stack) ++ "] "
          ++ Sprintf env.lib format v := by
  simp [formatLog, Sprintf_line]

theorem formatHeader_std (t : Time) : formatHeader t "" LstdFlags = stdHeader t := by
  have h1 : LstdFlags &&& Lmsgprefix = 0 := by decide
  have h2 : LstdFlags &&& Ldate ≠ 0 := by decide
  have h3 : LstdFlags &&& Ltime ≠ 0 := by decide
  apply String.ext
  simp [formatHeader, stdHeader, h1, h2, h3, String.data_append]

theorem formatLog_method (env : Env) (site : Nat) (format : String) (v : List Value) :
    formatLog env (⟨env.self, site⟩ :: env.callers) format v
      = lineHead env.now (Base env.self ++ ":" ++ intText site) ++ Sprintf env.lib format v := by
  rw [formatLog_eq, getCallerInfo_method]; rfl

/-- Every method prints the composed line and a newline. -/
theorem exec_stdout (l : Logger) (env : Env) (c : Call) (w : World) :
    (l.exec env c w).stdout = w.stdout ++ (composedLine env c ++ "\n") := by
  cases c <;>
    simp only [Logger.exec, Logger.Print, Logger.Printf, Logger.Error, Logger.Errorf,
      Logger.Fatal, Logger.Fatalf, World.emit, StdLogger.Print, File.Write, Println, osExit,
      Sprint_str, Sprintln_str, formatLog_method, composedLine, Call.tag, Call.site,
      Call.message, Sprintf_error_v, Sprintf_error_s] <;>
    split_ifs <;> simp_all [String.append_assoc]

/-- Every method: lock, one write of the logger record to the file, one
print of the line, then unlock or exit. -/
theorem exec_trace (l : Logger) (env : Env) (c : Call) (w : World) :
    (l.exec env c w).trace
      = w.trace ++ [Effect.lock,
          Effect.fileWrite (l.logger.output env.logNow (composedLine env c)) env.writeOk,
          Effect.stdout (composedLine env c ++ "\n"),
          if c.isFatal then Effect.exit 1 else Effect.unlock] := by
  cases c <;>
    simp only [Logger.exec, Logger.Print, Logger.Printf, Logger.Error, Logger.Errorf,
      Logger.Fatal, Logger.Fatalf, World.emit, StdLogger.Print, File.Write, Println, osExit,
      Sprint_str, Sprintln_str, formatLog_method, composedLine, Call.tag, Call.site,
      Call.message, Call.isFatal, Sprintf_error_v, Sprintf_error_s] <;>
    split_ifs <;> simp_all [String.append_assoc]

/-- Only the fatal methods terminate the process. -/
theorem exec_exited (l : Logger) (env : Env) (c : Call) (w : World) :
    (l.exec env c w).exited = if c.isFatal then some 1 else w.exited := by
  cases c <;>
    simp only [Logger.exec, Logger.Print, Logger.Printf, Logger.Error, Logger.Errorf,
      Logger.Fatal, Logger.Fatalf, World.emit, StdLogger.Print, File.Write, Println, osExit,
      Call.isFatal] <;>
    split_ifs <;> simp_all

/-- On a file opened with `O_APPEND` a successful write puts the record at
the end of the file. -/
theorem exec_file (l : Logger) (env : Env) (c : Call) (w : World)
    (happ : l.logger.out.flag &&& O_APPEND ≠ 0) :
    (l.exec env c w).file
      = if env.writeOk then w.file ++ l.logger.output env.logNow (composedLine env c)
        else w.file := by
  cases c <;>
    simp only [Logger.exec, Logger.Print, Logger.Printf, Logger.Error, Logger.Errorf,
      Logger.Fatal, Logger.Fatalf, World.emit, StdLogger.Print, File.Write, Println, osExit,
      Sprint_str, Sprintln_str, formatLog_method, composedLine, Call.tag, Call.site,
      Call.message, Sprintf_error_v, Sprintf_error_s, if_pos happ] <;>
    split_ifs <;> simp_all [String.append_assoc]

theorem Print_eq_exec (l : Logger) (env : Env) (v : List Value) (w : World) :
    l.Print env v w = l.exec env (.print v) w := rfl
theorem Printf_eq_exec (l : Logger) (env : Env) (f : String) (v : List Value) (w : World) :
    l.Printf env f v w = l.exec env (.printf f v) w := rfl
theorem Error_eq_exec (l : Logger) (env : Env) (v : List Value) (w : World) :
    l.Error env v w = l.exec env (.error v) w := rfl
theorem Errorf_eq_exec (l : Logger) (env : Env) (f : String) (v : List Value) (w : World) :
    l.Errorf env f v w = l.exec env (.errorf f v) w := rfl
theorem Fatal_eq_exec (l : Logger) (env : Env) (v : List Value) (w : World) :
    l.Fatal env v w = l.exec env (.fatal v) w := rfl
theorem Fatalf_eq_exec (l : Logger) (env : Env) (f : String) (v : List Value) (w : World) :
    l.Fatalf env f v w = l.exec env (.fatalf f v) w := rfl

theorem appendInt_two_length (x : Nat) (h : x < 100) : (appendInt x 2).length = 2 := by
  simp [appendInt, h, String.length]

theorem appendInt_four_length (x : Nat) (h : x < 10000) : (appendInt x 4).length = 4 := by
  simp [appendInt, h, String.length]

theorem Format_datetime (t : Time) :
    t.Format "2006-01-02 15:04:05"
      = appendInt t.year 4 ++ "-" ++ appendInt t.month 2 ++ "-" ++ appendInt t.day 2 ++ " "
          ++ appendInt t.hour 2 ++ ":" ++ appendInt t.minute 2 ++ ":" ++ appendInt t.second 2 := by
  apply String.ext
  simp [Time.Format, formatLayout, String.data_append]

theorem Format_date (t : Time) :
    t.Format "2006-01-02"
      = appendInt t.year 4 ++ "-" ++ appendInt t.month 2 ++ "-" ++ appendInt t.day 2 := by
  apply String.ext
  simp [Time.Format, formatLayout, String.data_append]

theorem Format_datetime_length (t : Time) (h : t.wellFormed) :
    (t.Format "2006-01-02 15:04:05").length = 19 := by
  obtain ⟨hy, hm, hd, hh, hmi, hs⟩ := h
  rw [Format_datetime]
  simp only [String.length_append]
  rw [appendInt_four_length _ (by omega), appendInt_two_length _ (by omega),
    appendInt_two_length _ (by omega), appendInt_two_length _ (by omega),
    appendInt_two_length _ (by omega), appendInt_two_length _ (by omega)]
  rfl

/-- A single operand is rendered alike by the verb `v` and by `Sprint`. -/
theorem Sprintf_v_single (lib : Lib) (x : Value) : Sprintf lib "%v" [x] = Sprint [x] := by
  rw [Sprintf_simple lib _ _ _ (by rfl)]
  apply String.ext
  cases x <;> simp [doPrintf, Sprint, doPrint, extraSuffix, String.data_append]

theorem ensureNewline_last (b : String) : (ensureNewline b).data.getLast? = some '\n' := by
  unfold ensureNewline
  split
  · assumption
  · simp [String.data_append]

theorem ensureNewline_of_not_mem (b : String) (h : '\n' ∉ b.data) :
    ensureNewline b = b ++ "\n" := by
  unfold ensureNewline
  split
  · rename_i hl
    exact absurd (List.mem_of_getLast?_eq_some hl) h
  · rfl

theorem newlines_ensureNewline (b : String) (h : '\n' ∉ b.data) :
    newlines (ensureNewline b) = 1 := by
  rw [ensureNewline_of_not_mem b h]
  simp [newlines, String.data_append, List.count_eq_zero_of_not_mem h]

theorem Errorf_getwd (lib : Lib) (e : String) :
    Errorf lib "Failed to get working directory: %v" [.str e]
      = "Failed to get working directory: " ++ e := by
  unfold Errorf
  rw [Sprintf_simple lib _ _ _ (by rfl)]
  apply String.ext
  simp [doPrintf, printArg, extraSuffix, String.data_append]

theorem Errorf_logs (lib : Lib) (e : String) :
    Errorf lib "Error creating logs directory: %v" [.str e]
      = "Error creating logs directory: " ++ e := by
  unfold Errorf
  rw [Sprintf_simple lib _ _ _ (by rfl)]
  apply String.ext
  simp [doPrintf, printArg, extraSuffix, String.data_append]

theorem Errorf_date (lib : Lib) (e : String) :
    Errorf lib "Failed to create date directory: %v" [.str e]
      = "Failed to create date directory: " ++ e := by
  unfold Errorf
  rw [Sprintf_simple lib _ _ _ (by rfl)]
  apply String.ext
  simp [doPrintf, printArg, extraSuffix, String.data_append]

theorem Errorf_open (lib : Lib) (e : String) :
    Errorf lib "Failed to open log file: %v" [.str e] = "Failed to open log file: " ++ e := by
  unfold Errorf
  rw [Sprintf_simple lib _ _ _ (by rfl)]
  apply String.ext
  simp [doPrintf, printArg, extraSuffix, String.data_append]

theorem MkdirAll_error (os : OS) (path : String) (perm : Nat) (h : Host) (e : String)
    (hm : os.mkdirAll path = some e) :
    MkdirAll os path perm h
      = (some e, { dirs := h.dirs, files := h.files,
                   calls := h.calls ++ [Syscall.mkdirAll path perm] }) := by
  simp [MkdirAll, hm]

theorem MkdirAll_ok (os : OS) (path : String) (perm : Nat) (h : Host)
    (hm : os.mkdirAll path = none) :
    MkdirAll os path perm h
      = (none, { dirs := withDir h.dirs path, files := h.files,
                 calls := h.calls ++ [Syscall.mkdirAll path perm] }) := by
  simp only [MkdirAll, hm, withDir]
  split_ifs <;> rfl

theorem OpenFile_error (os : OS) (path : String) (flag perm : Nat) (h : Host) (e : String)
    (ho : os.openFile path = some e) :
    OpenFile os path flag perm h
      = (.error e, { dirs := h.dirs, files := h.files,
                     calls := h.calls ++ [Syscall.openFile path flag perm] }) := by
  simp [OpenFile, ho]

theorem OpenFile_append_ok (os : OS) (path : String) (perm : Nat) (h : Host)
    (ho : os.openFile path = none) :
    OpenFile os path (O_APPEND ||| O_CREATE ||| O_WRONLY) perm h
      = (.ok ⟨path, O_APPEND ||| O_CREATE ||| O_WRONLY⟩,
         { dirs := h.dirs, files := withFile h.files path,
           calls := h.calls ++
             [Syscall.openFile path (O_APPEND ||| O_CREATE ||| O_WRONLY) perm] }) := by
  have ht : ¬ ((O_APPEND ||| O_CREATE ||| O_WRONLY) &&& O_TRUNC ≠ 0) := by decide
  have hc : (O_APPEND ||| O_CREATE ||| O_WRONLY) &&& O_CREATE ≠ 0 := by decide
  simp only [OpenFile, ho, withFile, if_neg ht, if_pos hc]
  split_ifs <;> rfl

theorem New_getwd_error (lib : Lib) (os : OS) (now : Time) (filename : String) (h : Host)
    (e : String) (hg : os.getwd = .error e) :
    New lib os now filename h
      = (.error ("Failed to get working directory: " ++ e),
         { h with calls := h.calls ++ [Syscall.getwd] }) := by
  simp [New, Getwd, hg, Errorf_getwd]

theorem New_logs_error (lib : Lib) (os : OS) (now : Time) (filename : String) (h : Host)
    (wd e : String) (hg : os.getwd = .ok wd) (hl : os.mkdirAll (logsDirOf wd) = some e) :
    New lib os now filename h
      = (.error ("Error creating logs directory: " ++ e),
         { h with calls := h.calls
             ++ [Syscall.getwd, Syscall.mkdirAll (logsDirOf wd) 0o755] }) := by
  unfold logsDirOf at hl
  simp [New, Getwd, hg, MkdirAll_error _ _ _ _ _ hl, Errorf_logs, logsDirOf]

theorem New_date_error (lib : Lib) (os : OS) (now : Time) (filename : String) (h : Host)
    (wd e : String) (hg : os.getwd = .ok wd) (hl : os.mkdirAll (logsDirOf wd) = none)
    (hd : os.mkdirAll (datePathOf wd now) = some e) :
    New lib os now filename h
      = (.error ("Failed to create date directory: " ++ e),
         { dirs := withDir h.dirs (logsDirOf wd), files := h.files,
           calls := h.calls ++ [Syscall.getwd, Syscall.mkdirAll (logsDirOf wd) 0o755,
             Syscall.mkdirAll (datePathOf wd now) 0o755] }) := by
  unfold datePathOf at hd
  unfold logsDirOf at hl hd
  simp [New, Getwd, hg, MkdirAll_ok _ _ _ _ hl, MkdirAll_error _ _ _ _ _ hd, Errorf_date,
    logsDirOf, datePathOf]

theorem New_open_error (lib : Lib) (os : OS) (now : Time) (filename : String) (h : Host)
    (wd e : String) (hg : os.getwd = .ok wd) (hl : os.mkdirAll (logsDirOf wd) = none)
    (hd : os.mkdirAll (datePathOf wd now) = none)
    (ho : os.openFile (fullPathOf wd now filename) = some e) :
    New lib os now filename h
      = (.error ("Failed to open log file: " ++ e),
         { dirs := withDir (withDir h.dirs (logsDirOf wd)) (datePathOf wd now), files := h.files,
           calls := h.calls ++ [Syscall.getwd, Syscall.mkdirAll (logsDirOf wd) 0o755,
             Syscall.mkdirAll (datePathOf wd now) 0o755,
             Syscall.openFile (fullPathOf wd now filename)
               (O_APPEND ||| O_CREATE ||| O_WRONLY) 0o644] }) := by
  unfold fullPathOf fileName at ho
  unfold datePathOf at hd ho
  unfold logsDirOf at hl hd ho
  simp [New, Getwd, hg, MkdirAll_ok _ _ _ _ hl, MkdirAll_ok _ _ _ _ hd,
    OpenFile_error _ _ _ _ _ _ ho, Errorf_open, logsDirOf, datePathOf, fullPathOf, fileName]

theorem New_ok (lib : Lib) (os : OS) (now : Time) (filename : String) (h : Host) (wd : String)
    (hg : os.getwd = .ok wd) (hl : os.mkdirAll (logsDirOf wd) = none)
    (hd : os.mkdirAll (datePathOf wd now) = none)
    (ho : os.openFile (fullPathOf wd now filename) = none) :
    New lib os now filename h
      = (.ok (loggerAt (fullPathOf wd now filename)),
         { dirs := withDir (withDir h.dirs (logsDirOf wd)) (datePathOf wd now),
           files := withFile h.files (fullPathOf wd now filename),
           calls := h.calls ++ [Syscall.getwd, Syscall.mkdirAll (logsDirOf wd) 0o755,
             Syscall.mkdirAll (datePathOf wd now) 0o755,
             Syscall.openFile (fullPathOf wd now filename)
               (O_APPEND ||| O_CREATE ||| O_WRONLY) 0o644] }) := by
  unfold fullPathOf fileName at ho
  unfold datePathOf at hd ho
  unfold logsDirOf at hl hd ho
  simp [New, Getwd, hg, MkdirAll_ok _ _ _ _ hl, MkdirAll_ok _ _ _ _ hd,
    OpenFile_append_ok _ _ _ _ ho, logsDirOf, datePathOf, fullPathOf, fileName, loggerAt]

/-- The iteration bound of `natDigits` is never reached: any two bounds above
the number give the same digits. -/
theorem digitsAux_fuel (f1 : Nat) : ∀ (f2 n : Nat) (acc : List Char), n < f1 → n < f2 →
    digitsAux f1 n acc = digitsAux f2 n acc := by
  induction f1 with
  | zero => intro f2 n acc h; omega
  | succ k ih =>
    intro f2 n acc h1 h2
    cases f2 with
    | zero => omega
    | succ j =>
      unfold digitsAux
      split_ifs with hn
      · rfl
      · exact ih j (n / 10) _ (by omega) (by omega)

/-- The iteration bound of `itoa` is never reached. -/
theorem itoaLoop_fuel (f1 : Nat) : ∀ (f2 i wid : Nat) (acc : List Char), i + wid ≤ f1 →
    i + wid ≤ f2 → itoaLoop f1 i wid acc = itoaLoop f2 i wid acc := by
  induction f1 with
  | zero =>
    intro f2 i wid acc h1 _
    have hi : i = 0 := by omega
    have hw : wid = 0 := by omega
    subst hi; subst hw
    cases f2 <;> simp [itoaLoop]
  | succ k ih =>
    intro f2 i wid acc h1 h2
    cases f2 with
    | zero =>
      have hi : i = 0 := by omega
      have hw : wid = 0 := by omega
      subst hi; subst hw
      simp [itoaLoop]
    | succ j =>
      unfold itoaLoop
      split_ifs with hc
      · exact ih j (i / 10) (wid - 1) _ (by omega) (by omega)
      · rfl

/-- What a successful `New` has done: every step succeeded, the logger holds
the joined path, the file opened for appending, and a `log.Logger` on that
file with no prefix and the standard flags. -/
theorem New_ok_inv (lib : Lib) (os : OS) (now : Time) (filename : String) (h : Host)
    (l : Logger) (hnew : (New lib os now filename h).1 = .ok l) :
    ∃ wd, os.getwd = .ok wd ∧ os.mkdirAll (logsDirOf wd) = none
      ∧ os.mkdirAll (datePathOf wd now) = none
      ∧ os.openFile (fullPathOf wd now filename) = none
      ∧ l = loggerAt (fullPathOf wd now filename) := by
  cases hg : os.getwd with
  | error e => rw [New_getwd_error lib os now filename h e hg] at hnew; cases hnew
  | ok wd =>
    cases hl : os.mkdirAll (logsDirOf wd) with
    | some e => rw [New_logs_error lib os now filename h wd e hg hl] at hnew; cases hnew
    | none =>
      cases hd : os.mkdirAll (datePathOf wd now) with
      | some e => rw [New_date_error lib os now filename h wd e hg hl hd] at hnew; cases hnew
      | none =>
        cases ho : os.openFile (fullPathOf wd now filename) with
        | some e =>
          rw [New_open_error lib os now filename h wd e hg hl hd ho] at hnew; cases hnew
        | none =>
          rw [New_ok lib os now filename h wd hg hl hd ho] at hnew
          refine ⟨wd, rfl, hl, hd, ho, ?_⟩
          simpa using hnew.symm

theorem mem_withDir (dirs : List String) (p : String) : p ∈ withDir dirs p := by
  unfold withDir; split_ifs with hp
  · exact hp
  · simp

theorem subset_withDir (dirs : List String) (p : String) : dirs ⊆ withDir dirs p := by
  unfold withDir; split_ifs
  · exact List.Subset.refl _
  · exact List.subset_append_left _ _

/-! ## Lemmas on `filepath.Clean` -/

theorem splitSep_ne_nil (x : List Char) : splitSep x ≠ [] := by
  induction x with
  | nil => simp [splitSep]
  | cons c cs ih =>
    unfold splitSep
    split_ifs
    · simp
    · split <;> simp

theorem splitSep_of_not_mem (d : List Char) (h : '/' ∉ d) : splitSep d = [d] := by
  induction d with
  | nil => rfl
  | cons c cs ih =>
    have hc : c ≠ '/' := fun hc => h (by simp [hc])
    have hcs : '/' ∉ cs := fun hm => h (List.mem_cons_of_mem _ hm)
    simp [splitSep, hc, ih hcs]

theorem splitSep_append (a d : List Char) (h : '/' ∉ d) :
    splitSep (a ++ '/' :: d) = splitSep a ++ [d] := by
  induction a with
  | nil => simp [splitSep, splitSep_of_not_mem d h]
  | cons c cs ih =>
    by_cases hc : c = '/'
    · simp [splitSep, hc, ih]
    · obtain ⟨hd, tl, hs⟩ := List.exists_cons_of_ne_nil (splitSep_ne_nil cs)
      simp [splitSep, hc, ih, hs]

theorem splitSep_elem_append (e x : List Char) (h : '/' ∉ e) :
    splitSep (e ++ '/' :: x) = e :: splitSep x := by
  induction e with
  | nil => simp [splitSep]
  | cons c cs ih =>
    have hc : c ≠ '/' := fun hc => h (by simp [hc])
    have hcs : '/' ∉ cs := fun hm => h (List.mem_cons_of_mem _ hm)
    simp [splitSep, hc, ih hcs]

theorem splitSep_joinSep (es : List (List Char)) (hne : es ≠ [])
    (h : ∀ e ∈ es, '/' ∉ e) : splitSep (joinSep es) = es := by
  induction es with
  | nil => exact absurd rfl hne
  | cons e rest ih =>
    cases rest with
    | nil => simpa [joinSep] using splitSep_of_not_mem e (h e (by simp))
    | cons e2 rest2 =>
      have h1 : '/' ∉ e := h e (by simp)
      have h2 : ∀ x ∈ e2 :: rest2, '/' ∉ x := fun x hx => h x (List.mem_cons_of_mem _ hx)
      simp only [joinSep]
      rw [splitSep_elem_append e _ h1, ih (by simp) h2]

theorem not_mem_of_mem_splitSep (x : List Char) : ∀ e ∈ splitSep x, '/' ∉ e := by
  induction x with
  | nil => simp [splitSep]
  | cons c cs ih =>
    by_cases hc : c = '/'
    · simp only [splitSep, hc, if_true]
      intro e he
      rcases List.mem_cons.1 he with rfl | he
      · simp
      · exact ih e he
    · obtain ⟨hd, tl, hs⟩ := List.exists_cons_of_ne_nil (splitSep_ne_nil cs)
      simp only [splitSep, hc, if_false, hs]
      intro e he
      rcases List.mem_cons.1 he with rfl | he
      · have := ih hd (by simp [hs])
        intro hm
        rcases List.mem_cons.1 hm with h1 | h1
        · exact hc h1.symm
        · exact this h1
      · exact ih e (by simp [hs, he])

theorem Kept_cleanStep (rooted : Bool) (kept : List (List Char)) (e : List Char)
    (hk : Kept rooted kept) (he : '/' ∉ e) : Kept rooted (cleanStep rooted kept e) := by
  by_cases h1 : e = [] ∨ e = ['.']
  · have hs : cleanStep rooted kept e = kept := by simp only [cleanStep, if_pos h1]
    rw [hs]; exact hk
  · by_cases h2 : e = ['.', '.']
    · cases kept with
      | nil => cases rooted <;> simp [cleanStep, h2, Kept]
      | cons top below =>
        by_cases h3 : top = ['.', '.']
        · have hs : cleanStep rooted (top :: below) e = e :: top :: below := by
            simp [cleanStep, h2, h3]
          rw [hs]
          exact ⟨⟨by simp [h2], he, by simp [h2]⟩, fun _ => Or.inr (by simp [h3]), hk⟩
        · have hs : cleanStep rooted (top :: below) e = below := by
            simp [cleanStep, h2, h3]
          rw [hs]; exact hk.2.2
    · have hs : cleanStep rooted kept e = e :: kept := by
        simp only [cleanStep, if_neg h1, if_neg h2]
      rw [hs]
      push_neg at h1
      exact ⟨⟨h1.1, he, h1.2⟩, fun h => absurd h h2, hk⟩

theorem Kept_foldl (rooted : Bool) (es : List (List Char)) :
    ∀ kept, Kept rooted kept → (∀ e ∈ es, '/' ∉ e) →
      Kept rooted (es.foldl (cleanStep rooted) kept) := by
  induction es with
  | nil => intro kept hk _; exact hk
  | cons e rest ih =>
    intro kept hk h
    exact ih _ (Kept_cleanStep rooted kept e hk (h e (by simp)))
      (fun x hx => h x (List.mem_cons_of_mem _ hx))

theorem cleanStep_of_Kept (rooted : Bool) (e : List Char) (below : List (List Char))
    (hk : Kept rooted (e :: below)) : cleanStep rooted below e = e :: below := by
  obtain ⟨⟨h1, -, h3⟩, h4, -⟩ := hk
  have h13 : ¬ (e = [] ∨ e = ['.']) := by push_neg; exact ⟨h1, h3⟩
  by_cases h2 : e = ['.', '.']
  · rcases h4 h2 with ⟨hb, hr⟩ | hh
    · subst hb; subst hr; simp [cleanStep, h2]
    · cases below with
      | nil => simp at hh
      | cons top rest =>
        simp only [List.head?_cons, Option.some.injEq] at hh
        simp [cleanStep, h2, hh]
  · simp only [cleanStep, if_neg h13, if_neg h2]

theorem foldl_reverse_of_Kept (rooted : Bool) (kept : List (List Char))
    (hk : Kept rooted kept) : kept.reverse.foldl (cleanStep rooted) [] = kept := by
  induction kept with
  | nil => rfl
  | cons e below ih =>
    rw [List.reverse_cons, List.foldl_append, ih hk.2.2]
    simpa using cleanStep_of_Kept rooted e below hk

theorem cleanStep_simple (rooted : Bool) (kept : List (List Char)) (d : List Char)
    (hd : Simple d) : cleanStep rooted kept d = d :: kept := by
  obtain ⟨h1, -, h3, h4⟩ := hd
  simp [cleanStep, h1, h3, h4]

theorem Kept_all_no_sep (rooted : Bool) (kept : List (List Char)) (hk : Kept rooted kept) :
    ∀ e ∈ kept, e ≠ [] ∧ '/' ∉ e := by
  induction kept with
  | nil => simp
  | cons e below ih =>
    intro x hx
    rcases List.mem_cons.1 hx with rfl | hx
    · exact ⟨hk.1.1, hk.1.2.1⟩
    · exact ih hk.2.2 x hx

theorem joinSep_append_singleton (es : List (List Char)) (d : List Char) (hne : es ≠ []) :
    joinSep (es ++ [d]) = joinSep es ++ '/' :: d := by
  induction es with
  | nil => exact absurd rfl hne
  | cons e rest ih =>
    cases rest with
    | nil => simp [joinSep]
    | cons e2 rest2 =>
      have := ih (by simp)
      simp only [List.cons_append] at this ⊢
      simp [joinSep, this]

theorem joinSep_head (es : List (List Char)) (e : List Char) (he : e ≠ []) :
    (joinSep (e :: es)).head? = e.head? := by
  cases es with
  | nil => rfl
  | cons e2 rest =>
    cases e with
    | nil => exact absurd rfl he
    | cons c cs => simp [joinSep]

theorem render_ne_nil (rooted : Bool) (kept : List (List Char)) (hk : Kept rooted kept) :
    render rooted kept ≠ [] := by
  unfold render
  split_ifs with h1 h2
  · simp
  · simp
  · obtain ⟨e, rest, hr⟩ := List.exists_cons_of_ne_nil
      (show kept.reverse ≠ [] by simpa using h2)
    have he := (Kept_all_no_sep rooted kept hk e (by
      have : e ∈ kept.reverse := by rw [hr]; simp
      simpa using this)).1
    rw [hr]
    intro hj
    have := joinSep_head rest e he
    rw [hj] at this
    cases e with
    | nil => exact he rfl
    | cons c cs => simp at this

theorem render_head (rooted : Bool) (kept : List (List Char)) (hk : Kept rooted kept) :
    decide ((render rooted kept).head? = some '/') = rooted := by
  unfold render
  cases rooted with
  | true => simp
  | false =>
    simp only [Bool.false_eq_true, if_false, decide_eq_false_iff_not]
    split_ifs with h2
    · simp
    · obtain ⟨e, rest, hr⟩ := List.exists_cons_of_ne_nil
        (show kept.reverse ≠ [] by simpa using h2)
      have hmem : e ∈ kept := by
        have : e ∈ kept.reverse := by rw [hr]; simp
        simpa using this
      obtain ⟨he, hs⟩ := Kept_all_no_sep false kept hk e hmem
      rw [hr, joinSep_head rest e he]
      cases e with
      | nil => exact absurd rfl he
      | cons c cs =>
        simp only [List.head?_cons, Option.some.injEq]
        intro hc
        exact hs (by simp [hc])

theorem foldl_splitSep_render (rooted : Bool) (kept : List (List Char))
    (hk : Kept rooted kept) :
    (splitSep (render rooted kept)).foldl (cleanStep rooted) [] = kept := by
  have hall : ∀ e ∈ kept.reverse, '/' ∉ e := fun e he =>
    (Kept_all_no_sep rooted kept hk e (by simpa using he)).2
  unfold render
  by_cases hnil : kept = []
  · subst hnil
    cases rooted <;> simp [joinSep, splitSep, cleanStep]
  · have hrev : kept.reverse ≠ [] := by simpa using hnil
    cases rooted with
    | true =>
      simp only [if_true, splitSep, splitSep_joinSep _ hrev hall, List.foldl_cons]
      simpa [cleanStep] using foldl_reverse_of_Kept true kept hk
    | false =>
      simp only [Bool.false_eq_true, if_false, if_neg hnil, splitSep_joinSep _ hrev hall]
      exact foldl_reverse_of_Kept false kept hk

theorem cleanChars_eq (path : List Char) (h : path ≠ []) :
    cleanChars path
      = render (decide (path.head? = some '/'))
          ((splitSep path).foldl (cleanStep (decide (path.head? = some '/'))) []) := by
  simp [cleanChars, render, h]

theorem render_push (rooted : Bool) (kept : List (List Char)) (d : List Char)
    (hne : kept ≠ []) : render rooted (d :: kept) = render rooted kept ++ '/' :: d := by
  have hrev : kept.reverse ≠ [] := by simpa using hne
  unfold render
  rw [List.reverse_cons, joinSep_append_singleton _ _ hrev]
  cases rooted <;> simp [hne]

theorem Kept_push (rooted : Bool) (kept : List (List Char)) (d : List Char)
    (hk : Kept rooted kept) (hd : Simple d) : Kept rooted (d :: kept) :=
  ⟨⟨hd.1, hd.2.1, hd.2.2.1⟩, fun h => absurd h hd.2.2.2, hk⟩

/-- Appending a simple element to a cleaned path with a kept element gives a
path that `Clean` leaves as it is. -/
theorem cleanChars_open_append (p d : List Char) (hp : OpenPath p) (hd : Simple d) :
    cleanChars (p ++ '/' :: d) = p ++ '/' :: d ∧ OpenPath (p ++ '/' :: d) := by
  obtain ⟨r, kept, hk, hne, rfl⟩ := hp
  have hpne := render_ne_nil r kept hk
  have hhead : (render r kept ++ '/' :: d).head? = (render r kept).head? :=
    List.head?_append_of_ne_nil _ hpne
  have hclean : cleanChars (render r kept ++ '/' :: d) = render r (d :: kept) := by
    rw [cleanChars_eq _ (by simp), hhead, render_head r kept hk, splitSep_append _ _ hd.2.1,
      List.foldl_append, foldl_splitSep_render r kept hk]
    simp [cleanStep_simple r kept d hd]
  rw [hclean, render_push r kept d hne]
  exact ⟨rfl, r, d :: kept, Kept_push r kept d hk hd, by simp, (render_push r kept d hne).symm⟩

/-- Cleaning any path that ends in a simple element keeps that element. -/
theorem cleanChars_append_open (x d : List Char) (hd : Simple d) :
    OpenPath (cleanChars (x ++ '/' :: d)) := by
  rw [cleanChars_eq _ (by simp), splitSep_append _ _ hd.2.1, List.foldl_append]
  simp only [List.foldl_cons, List.foldl_nil]
  rw [cleanStep_simple _ _ d hd]
  exact ⟨_, _, Kept_push _ _ d
    (Kept_foldl _ _ [] trivial (not_mem_of_mem_splitSep x)) hd, by simp, rfl⟩

/-- Cleaning a simple element keeps it. -/
theorem cleanChars_simple_open (d : List Char) (hd : Simple d) : OpenPath (cleanChars d) := by
  rw [cleanChars_eq _ hd.1, splitSep_of_not_mem d hd.2.1]
  simp only [List.foldl_cons, List.foldl_nil]
  rw [cleanStep_simple _ _ d hd]
  exact ⟨_, _, Kept_push _ [] d trivial hd, by simp, rfl⟩

theorem OpenPath_ne_nil (p : List Char) (hp : OpenPath p) : p ≠ [] := by
  obtain ⟨r, kept, hk, -, rfl⟩ := hp
  exact render_ne_nil r kept hk

theorem data_ne_nil_iff (s : String) : s.data ≠ [] ↔ s ≠ "" := by
  constructor
  · intro h hs; exact h (by rw [hs])
  · intro h hs; exact h (String.ext hs)

theorem Join_pair (a b : String) (ha : a ≠ "") : Join [a, b] = Clean (a ++ "/" ++ b) := by
  simp [Join, joinStrings, ha]

/-- Joining a simple element to a cleaned path with a kept element appends
a separator and the element. -/
theorem Join_open (a b : String) (ha : OpenPath a.data) (hb : Simple b.data) :
    Join [a, b] = a ++ "/" ++ b ∧ OpenPath (Join [a, b]).data := by
  have hne : a ≠ "" := (data_ne_nil_iff a).1 (OpenPath_ne_nil _ ha)
  have key := cleanChars_open_append a.data b.data ha hb
  rw [Join_pair a b hne]
  have hdata : (a ++ "/" ++ b).data = a.data ++ '/' :: b.data := by
    simp [String.data_append]
  refine ⟨String.ext ?_, ?_⟩
  · show cleanChars (a ++ "/" ++ b).data = (a ++ "/" ++ b).data
    rw [hdata]; exact key.1
  · show OpenPath (cleanChars (a ++ "/" ++ b).data)
    rw [hdata, key.1]; exact key.2

theorem logsDirOf_open (wd : String) : OpenPath (logsDirOf wd).data := by
  have hs : Simple "logs".data := by decide
  by_cases hwd : wd = ""
  · subst hwd
    have : logsDirOf "" = Clean "logs" := by decide
    rw [this]
    exact cleanChars_simple_open _ hs
  · unfold logsDirOf
    rw [Join_pair wd "logs" hwd]
    show OpenPath (cleanChars (wd ++ "/" ++ "logs").data)
    have hdata : (wd ++ "/" ++ "logs").data = wd.data ++ '/' :: "logs".data := by
      simp [String.data_append]
    rw [hdata]
    exact cleanChars_append_open _ _ hs

theorem digitChar_ne (d : Nat) : digitChar d ≠ '/' := by
  unfold digitChar
  split <;> decide

theorem digitsAux_ne (fuel : Nat) : ∀ (n : Nat) (acc : List Char), '/' ∉ acc →
    '/' ∉ digitsAux fuel n acc := by
  induction fuel with
  | zero => intro n acc h; simpa [digitsAux] using h
  | succ k ih =>
    intro n acc h
    unfold digitsAux
    have hcons : '/' ∉ digitChar n :: acc := by
      intro hm
      rcases List.mem_cons.1 hm with h1 | h1
      · exact digitChar_ne n h1.symm
      · exact h h1
    split_ifs
    · exact hcons
    · exact ih _ _ hcons

theorem appendInt_ne (x width : Nat) : '/' ∉ (appendInt x width).data := by
  unfold appendInt
  split_ifs
  · simp [(digitChar_ne _).symm]
  · simp [(digitChar_ne _).symm]
  · simp only [List.mem_append, not_or]
    refine ⟨fun hm => ?_, digitsAux_ne _ _ _ (by simp)⟩
    have := List.eq_of_mem_replicate hm
    exact absurd this (by decide)

theorem Format_date_simple (t : Time) : Simple (t.Format "2006-01-02").data := by
  have hdata : (t.Format "2006-01-02").data
      = (appendInt t.year 4).data ++ '-' :: ((appendInt t.month 2).data
          ++ '-' :: (appendInt t.day 2).data) := by
    rw [Format_date]; simp [String.data_append]
  have hmem : '-' ∈ (t.Format "2006-01-02").data := by rw [hdata]; simp
  refine ⟨fun h => ?_, ?_, fun h => ?_, fun h => ?_⟩
  · rw [h] at hmem; simp at hmem
  · rw [hdata]
    simp only [List.mem_append, List.mem_cons, not_or]
    exact ⟨appendInt_ne _ _, by decide, appendInt_ne _ _, by decide, appendInt_ne _ _⟩
  · rw [h] at hmem; revert hmem; decide
  · rw [h] at hmem; revert hmem; decide

theorem Base_append_simple (p name : String) (hn : name.data ≠ []) (hs : '/' ∉ name.data) :
    Base (p ++ "/" ++ name) = name := by
  have hdata : (p ++ "/" ++ name).data = p.data ++ '/' :: name.data := by
    simp [String.data_append]
  have hne : p ++ "/" ++ name ≠ "" := by
    intro h
    have := congrArg String.data h
    rw [hdata] at this
    simp at this
  obtain ⟨c, cs, hrev⟩ := List.exists_cons_of_ne_nil
    (show name.data.reverse ≠ [] by simpa using hn)
  have hall : ∀ x ∈ name.data.reverse, x ≠ '/' := fun x hx hx' =>
    hs (by rw [← hx']; simpa using hx)
  have hc : c ≠ '/' := hall c (by rw [hrev]; simp)
  have hdrop : ((p.data ++ '/' :: name.data).reverse.dropWhile (fun c => c = '/'))
      = name.data.reverse ++ '/' :: p.data.reverse := by
    simp [hrev, List.dropWhile, hc]
  have htake : ((name.data.reverse ++ '/' :: p.data.reverse).takeWhile (fun c => c ≠ '/'))
      = name.data.reverse := by
    rw [List.takeWhile_append_of_pos (by simpa using hall)]
    simp [List.takeWhile]
  unfold Base
  rw [if_neg hne]
  simp only [hdata, hdrop, List.reverse_reverse, htake]
  rw [if_neg hn]

theorem mem_withFile (files : List (String × String)) (p : String) :
    p ∈ (withFile files p).map Prod.fst := by
  unfold withFile
  split_ifs with hp
  · simpa using hp
  · simp

theorem fileName_simple (filename : String) (h : filename = "" ∨ Simple filename.data) :
    Simple (fileName filename).data := by
  unfold fileName
  split_ifs with he
  · decide
  · rcases h with h | h
    · exact absurd h he
    · exact h

/-- A path that `Clean` leaves as it is, other than the root and `.`, has a
kept element. -/
theorem OpenPath_of_clean (wd : String) (hc : Clean wd = wd) (hroot : wd ≠ "/")
    (hdot : wd ≠ ".") : OpenPath wd.data := by
  have hd : cleanChars wd.data = wd.data := congrArg String.data hc
  have hne : wd.data ≠ [] := by
    intro h
    rw [h] at hd
    exact absurd hd (by decide)
  rw [cleanChars_eq _ hne] at hd
  have hk := Kept_foldl (decide (wd.data.head? = some '/')) (splitSep wd.data) [] trivial
    (not_mem_of_mem_splitSep wd.data)
  by_cases hnil : (splitSep wd.data).foldl (cleanStep (decide (wd.data.head? = some '/'))) [] = []
  · rw [hnil] at hd
    exfalso
    cases hr : decide (wd.data.head? = some '/') with
    | true =>
      rw [hr] at hd
      exact hroot (String.ext (by rw [← hd]; rfl))
    | false =>
      rw [hr] at hd
      exact hdot (String.ext (by rw [← hd]; rfl))
  · exact ⟨_, _, hk, hnil, hd.symm⟩

theorem loggerAt_append (path : String) :
    (loggerAt path).logger.out.flag &&& O_APPEND ≠ 0 := by
  show (O_APPEND ||| O_CREATE ||| O_WRONLY) &&& O_APPEND ≠ 0
  decide

theorem loggerAt_output (path : String) (t : Time) (s : String) :
    (loggerAt path).logger.output t s = ensureNewline (stdHeader t ++ s) := by
  simp [loggerAt, StdLogger.output, logNew, formatHeader_std]

theorem intText_92 : intText 92 = "92" := by decide
theorem intText_102 : intText 102 = "102" := by decide
theorem intText_112 : intText 112 = "112" := by decide
theorem intText_123 : intText 123 = "123" := by decide
theorem intText_144 : intText 144 = "144" := by decide
theorem intText_154 : intText 154 = "154" := by decide

theorem composedLine_print (env : Env) (v : List Value) :
    composedLine env (.print v)
      = lineHead env.now (Base env.self ++ ":92") ++ Sprintf env.lib "%v" v := by
  simp [composedLine, Call.tag, Call.site, Call.message, intText_92, String.append_assoc]

theorem composedLine_printf (env : Env) (f : String) (v : List Value) :
    composedLine env (.printf f v)
      = lineHead env.now (Base env.self ++ ":102") ++ Sprintf env.lib f v := by
  simp [composedLine, Call.tag, Call.site, Call.message, intText_102, String.append_assoc]

theorem composedLine_fatal (env : Env) (v : List Value) :
    composedLine env (.fatal v)
      = lineHead env.now (Base env.self ++ ":112") ++ Sprintf env.lib "%v" v := by
  simp [composedLine, Call.tag, Call.site, Call.message, intText_112, String.append_assoc]

theorem composedLine_fatalf (env : Env) (f : String) (v : List Value) :
    composedLine env (.fatalf f v)
      = lineHead env.now (Base env.self ++ ":123") ++ Sprintf env.lib f v := by
  simp [composedLine, Call.tag, Call.site, Call.message, intText_123, String.append_assoc]

theorem composedLine_error (env : Env) (v : List Value) :
    composedLine env (.error v)
      = lineHead env.now (Base env.self ++ ":144") ++ "[ERROR] " ++ Sprintf env.lib "%v" v := by
  simp [composedLine, Call.tag, Call.site, Call.message, intText_144, String.append_assoc]

theorem composedLine_errorf (env : Env) (f : String) (v : List Value) :
    composedLine env (.errorf f v)
      = lineHead env.now (Base env.self ++ ":154") ++ "[ERROR] " ++ Sprintf env.lib f v := by
  simp [composedLine, Call.tag, Call.site, Call.message, intText_154, String.append_assoc]

theorem digitChar_eq (d : Nat) : digitChar d = decimalDigit d := by
  unfold digitChar decimalDigit
  have h := Nat.mod_lt d (show 10 > 0 by decide)
  revert h
  generalize d % 10 = k
  intro h
  interval_cases k <;> rfl

theorem Format_timestampOf (t : Time) (h : t.wellFormed) :
    t.Format "2006-01-02 15:04:05" = timestampOf t := by
  obtain ⟨hy, hm, hd, hh, hmi, hs⟩ := h
  rw [Format_datetime]
  have e4 : appendInt t.year 4 = ⟨[digitChar (t.year / 1000), digitChar (t.year / 100),
      digitChar (t.year / 10), digitChar t.year]⟩ := by
    simp [appendInt, show t.year < 10000 by omega]
  have e2 : ∀ x, x < 100 → appendInt x 2 = ⟨[digitChar (x / 10), digitChar x]⟩ := by
    intro x hx; simp [appendInt, hx]
  rw [e4, e2 _ (by omega), e2 _ (by omega), e2 _ (by omega), e2 _ (by omega), e2 _ (by omega)]
  apply String.ext
  simp [timestampOf, digitChar_eq, String.data_append]

theorem content_withFile (dirs : List String) (files : List (String × String))
    (calls : List Syscall) (path : String) :
    Host.content ⟨dirs, withFile files path, calls⟩ path
      = Host.content ⟨dirs, files, calls⟩ path := by
  unfold withFile
  split_ifs with hc
  · rfl
  · have hnone : files.find? (fun f => decide (f.1 = path)) = none := by
      rw [List.find?_eq_none]
      intro x hx hxp
      apply hc
      simp only [decide_eq_true_eq] at hxp
      simp only [List.contains_iff_exists_mem_beq, List.mem_map]
      exact ⟨path, ⟨x, hx, hxp⟩, by simp⟩
    simp [Host.content, List.find?_append, hnone]

/-! ## Lemmas on goroutines -/

theorem applySteps_cons (f : File) (st : Step) (steps : List Step) (w : World) :
    applySteps f (st :: steps) w = applySteps f steps (st.apply f w) := rfl

theorem applySteps_append (f : File) (a b : List Step) (w : World) :
    applySteps f (a ++ b) w = applySteps f b (applySteps f a w) := by
  simp [applySteps, List.foldl_append]

theorem serial_append (f : File) (bodies : List (List Step)) (fin : List Nat) (k : Nat)
    (w0 : World) :
    serial f bodies (fin ++ [k]) w0
      = applySteps f (wrap ((bodies[k]?).getD [])) (serial f bodies fin w0) := by
  simp [serial, List.foldl_append]

theorem Serialized_init (f : File) (bodies : List (List Step)) (w0 : World) :
    Serialized f bodies w0 ⟨w0, false, bodies.map wrap⟩ := by
  refine ⟨[], List.nodup_nil, by simp, Or.inl ⟨rfl, rfl, fun j => ?_⟩⟩
  simp

theorem Serialized_step (f : File) (bodies : List (List Step)) (w0 : World) (s s' : Conc)
    (i : Nat) (hb : ∀ b ∈ bodies, ∀ st ∈ b, st.isWrite = true)
    (hinv : Serialized f bodies w0 s) (hstep : s.step f i = some s') :
    Serialized f bodies w0 s' := by
  unfold Conc.step at hstep
  split at hstep
  · cases hstep
  · split at hstep
    · rename_i st rest hth
      by_cases hblk : (st = Step.acquire ∧ s.locked = true)
          ∨ (st = Step.release ∧ s.locked = false)
      · rw [if_pos hblk] at hstep; cases hstep
      rw [if_neg hblk] at hstep
      simp only [Option.some.injEq] at hstep
      subst hstep
      have hilt : i < s.threads.length := by
        rcases List.getElem?_eq_some_iff.1 hth with ⟨h, -⟩
        exact h
      obtain ⟨fin, hnd, hlt, hcase⟩ := hinv
      rcases hcase with ⟨hl, hw, hthr⟩ | ⟨hl, k, b, rem, hbk, hkfin, hrem, hthk, heq, hothers⟩
      · -- the mutex is free: the step takes it
        have h1 := hthr i
        rw [hth] at h1
        cases hbi : bodies[i]? with
        | none => rw [hbi] at h1; simp at h1
        | some b =>
          rw [hbi] at h1
          simp only [Option.map_some', Option.some.injEq] at h1
          by_cases hif : i ∈ fin
          · rw [if_pos hif] at h1; cases h1
          · rw [if_neg hif] at h1
            simp only [wrap, List.cons.injEq] at h1
            obtain ⟨hst, hrest⟩ := h1
            subst hst
            refine ⟨fin, hnd, hlt, Or.inr ⟨by simp, i, b, b, hbi, hif, ?_, ?_, ?_, ?_⟩⟩
            · exact hb b (List.getElem?_mem hbi)
            · simp [List.getElem?_set, hilt, hrest]
            · rw [hw]; rfl
            · intro j hj
              rw [List.getElem?_set_ne (Ne.symm hj)]
              exact hthr j
      · -- the mutex is locked by goroutine `k`
        by_cases hik : i = k
        · subst hik
          rw [hth] at hthk
          simp only [Option.some.injEq] at hthk
          cases rem with
          | nil =>
            simp only [List.nil_append, List.cons.injEq] at hthk
            obtain ⟨hst, hrest⟩ := hthk
            subst hst
            have hklt : i < bodies.length := by
              rcases List.getElem?_eq_some_iff.1 hbk with ⟨h, -⟩
              exact h
            refine ⟨fin ++ [i], ?_, ?_, Or.inl ⟨by simp, ?_, ?_⟩⟩
            · rw [List.nodup_append]
              refine ⟨hnd, List.nodup_singleton _, ?_⟩
              intro a ha ha'
              simp only [List.mem_singleton] at ha'
              subst ha'
              exact hkfin ha
            · intro j hj
              rcases List.mem_append.1 hj with hj | hj
              · exact hlt j hj
              · simp only [List.mem_singleton] at hj; subst hj; exact hklt
            · rw [serial_append, hbk]
              simp only [Option.getD_some]
              rw [← heq]
              rfl
            · intro j
              by_cases hj : j = i
              · subst hj
                simp [List.getElem?_set, hilt, hbk, hrest]
              · rw [List.getElem?_set_ne (Ne.symm hj), hothers j hj]
                cases bodies[j]? with
                | none => rfl
                | some b' => simp [hj]
          | cons st0 rem' =>
            simp only [List.cons_append, List.cons.injEq] at hthk
            obtain ⟨hst, hrest⟩ := hthk
            subst hst
            have hw0 : st.isWrite = true := hrem st (by simp)
            have hna : st ≠ Step.acquire := by intro h; rw [h] at hw0; cases hw0
            have hnr : st ≠ Step.release := by intro h; rw [h] at hw0; cases hw0
            refine ⟨fin, hnd, hlt, Or.inr ⟨by simp [hna, hnr, hl], i, b, rem', hbk, hkfin,
              ?_, ?_, ?_, ?_⟩⟩
            · intro x hx; exact hrem x (List.mem_cons_of_mem _ hx)
            · simp [List.getElem?_set, hilt, hrest]
            · rw [← heq]; rfl
            · intro j hj
              rw [List.getElem?_set_ne (Ne.symm hj)]
              exact hothers j hj
        · -- another goroutine cannot take the mutex
          exfalso
          have h1 := hothers i hik
          rw [hth] at h1
          cases hbi : bodies[i]? with
          | none => rw [hbi] at h1; simp at h1
          | some b' =>
            rw [hbi] at h1
            simp only [Option.map_some', Option.some.injEq] at h1
            by_cases hif : i ∈ fin
            · rw [if_pos hif] at h1; cases h1
            · rw [if_neg hif] at h1
              simp only [wrap, List.cons.injEq] at h1
              exact hblk (Or.inl ⟨h1.1, hl⟩)
    · cases hstep

theorem Serialized_run (f : File) (bodies : List (List Step)) (w0 : World)
    (hb : ∀ b ∈ bodies, ∀ st ∈ b, st.isWrite = true) (sched : List Nat) :
    ∀ s s' : Conc, Serialized f bodies w0 s → Conc.run f sched s = some s' →
      Serialized f bodies w0 s' := by
  induction sched with
  | nil =>
    intro s s' hinv hrun
    simp only [Conc.run, Option.some.injEq] at hrun
    subst hrun; exact hinv
  | cons i rest ih =>
    intro s s' hinv hrun
    simp only [Conc.run] at hrun
    cases hs : s.step f i with
    | none => rw [hs] at hrun; cases hrun
    | some s1 =>
      rw [hs] at hrun
      exact ih s1 s' (Serialized_step f bodies w0 s s1 i hb hinv hs) hrun

theorem stepsOf_append (a b : List Effect) : stepsOf (a ++ b) = stepsOf a ++ stepsOf b := by
  induction a with
  | nil => rfl
  | cons e es ih => simp [stepsOf, ih]

/-- The steps of a call of `Print` on a logger built by `New`: take the
mutex, put the record into the file and the line on standard output
character by character, release the mutex. -/
theorem printSteps_loggerAt (path : String) (call : Env × List Value) :
    printSteps (loggerAt path) call = wrap (printBody call) := by
  unfold printSteps
  rw [Print_eq_exec, exec_trace, loggerAt_output]
  cases hok : call.1.writeOk <;>
    simp [stepsOf, Effect.steps, wrap, printBody, fileRecordOf, consoleLineOf, Call.isFatal, hok]

theorem printBody_isWrite (call : Env × List Value) :
    ∀ st ∈ printBody call, st.isWrite = true := by
  intro st hst
  unfold printBody at hst
  rcases List.mem_append.1 hst with h | h
  · obtain ⟨c, -, rfl⟩ := List.mem_map.1 h; rfl
  · obtain ⟨c, -, rfl⟩ := List.mem_map.1 h; rfl

theorem applySteps_fileChars (f : File) (happ : f.flag &&& O_APPEND ≠ 0) (cs : List Char) :
    ∀ w : World, (applySteps f (cs.map Step.fileChar) w).file = w.file ++ ⟨cs⟩
      ∧ (applySteps f (cs.map Step.fileChar) w).stdout = w.stdout
      ∧ (applySteps f (cs.map Step.fileChar) w).exited = w.exited := by
  induction cs with
  | nil => intro w; exact ⟨(String.append_empty _).symm, rfl, rfl⟩
  | cons c cs ih =>
    intro w
    rw [List.map_cons, applySteps_cons]
    obtain ⟨h1, h2, h3⟩ := ih (Step.apply f (Step.fileChar c) w)
    rw [h1, h2, h3]
    refine ⟨?_, ?_, ?_⟩
    · apply String.ext
      simp [Step.apply, File.Write, happ, String.data_append]
    · simp [Step.apply, File.Write, happ]
    · simp [Step.apply, File.Write, happ]

theorem applySteps_outChars (f : File) (cs : List Char) :
    ∀ w : World, (applySteps f (cs.map Step.outChar) w).file = w.file
      ∧ (applySteps f (cs.map Step.outChar) w).stdout = w.stdout ++ ⟨cs⟩
      ∧ (applySteps f (cs.map Step.outChar) w).exited = w.exited := by
  induction cs with
  | nil => intro w; exact ⟨rfl, (String.append_empty _).symm, rfl⟩
  | cons c cs ih =>
    intro w
    rw [List.map_cons, applySteps_cons]
    obtain ⟨h1, h2, h3⟩ := ih (Step.apply f (Step.outChar c) w)
    rw [h1, h2, h3]
    refine ⟨rfl, ?_, rfl⟩
    apply String.ext
    simp [Step.apply, String.data_append]

/-- A whole call of `Print`, undisturbed, on a file opened for appending:
the file gains the record and standard output the line. -/
theorem applySteps_wrap_printBody (f : File) (happ : f.flag &&& O_APPEND ≠ 0)
    (call : Env × List Value) (w : World) :
    (applySteps f (wrap (printBody call)) w).file = w.file ++ fileRecordOf call
      ∧ (applySteps f (wrap (printBody call)) w).stdout = w.stdout ++ consoleLineOf call
      ∧ (applySteps f (wrap (printBody call)) w).exited = w.exited := by
  unfold wrap printBody
  rw [applySteps_cons, applySteps_append, applySteps_append, applySteps_cons]
  obtain ⟨a1, a2, a3⟩ := applySteps_fileChars f happ (fileRecordOf call).data
    (Step.apply f Step.acquire w)
  obtain ⟨b1, b2, b3⟩ := applySteps_outChars f (consoleLineOf call).data
    (applySteps f ((fileRecordOf call).data.map Step.fileChar) (Step.apply f Step.acquire w))
  refine ⟨?_, ?_, ?_⟩
  · show (Step.apply f Step.release _).file = _
    simp only [Step.apply, World.emit, applySteps] at *
    rw [b1, a1]
  · show (Step.apply f Step.release _).stdout = _
    simp only [Step.apply, World.emit, applySteps] at *
    rw [b2, a2]
  · show (Step.apply f Step.release _).exited = _
    simp only [Step.apply, World.emit, applySteps] at *
    rw [b3, a3]

theorem getElem?_map_printBody (calls : List (Env × List Value)) (j : Nat) :
    (calls.map printBody)[j]? = (calls[j]?).map printBody := by
  simp

/-- The goroutines in `fin`, one after the other, leave their records in the
file and their lines on standard output, in that order. -/
theorem serial_calls (f : File) (happ : f.flag &&& O_APPEND ≠ 0)
    (calls : List (Env × List Value)) (fin : List Nat) :
    ∀ w0 : World, (∀ j ∈ fin, j < calls.length) →
      (serial f (calls.map printBody) fin w0).file
          = w0.file ++ concat ((fin.filterMap (fun j => calls[j]?)).map fileRecordOf)
        ∧ (serial f (calls.map printBody) fin w0).stdout
          = w0.stdout ++ concat ((fin.filterMap (fun j => calls[j]?)).map consoleLineOf)
        ∧ (serial f (calls.map printBody) fin w0).exited = w0.exited := by
  induction fin with
  | nil =>
    intro w0 _
    exact ⟨(String.append_empty _).symm, (String.append_empty _).symm, rfl⟩
  | cons j rest ih =>
    intro w0 hlt
    have hj : j < calls.length := hlt j (by simp)
    obtain ⟨c, hc⟩ : ∃ c, calls[j]? = some c := ⟨calls[j], List.getElem?_eq_getElem hj⟩
    have hstep : serial f (calls.map printBody) (j :: rest) w0
        = serial f (calls.map printBody) rest (applySteps f (wrap (printBody c)) w0) := by
      simp [serial, hc]
    obtain ⟨h1, h2, h3⟩ := ih (applySteps f (wrap (printBody c)) w0)
      (fun k hk => hlt k (List.mem_cons_of_mem _ hk))
    obtain ⟨a1, a2, a3⟩ := applySteps_wrap_printBody f happ c w0
    rw [hstep, h1, h2, h3, a1, a2, a3]
    simp [List.filterMap_cons, hc, concat, String.append_assoc]

theorem Conc.finished_iff (s : Conc) :
    s.finished = true ↔ ∀ (j : Nat) (p : List Step), s.threads[j]? = some p → p = [] := by
  unfold Conc.finished
  rw [List.all_eq_true]
  constructor
  · intro h j p hp
    have := h p (List.getElem?_mem hp)
    simpa using this
  · intro h p hp
    obtain ⟨j, hj⟩ := List.mem_iff_getElem?.1 hp
    simp [h j p hj]

/-- Once every goroutine has finished, each has run exactly once, one after
the other. -/
theorem Serialized_finished (f : File) (bodies : List (List Step)) (w0 : World) (s : Conc)
    (hinv : Serialized f bodies w0 s) (hfin : s.finished = true) :
    ∃ fin : List Nat, fin.Perm (List.range bodies.length)
      ∧ s.world = serial f bodies fin w0 := by
  rw [Conc.finished_iff] at hfin
  obtain ⟨fin, hnd, hlt, hcase⟩ := hinv
  rcases hcase with ⟨-, hw, hthr⟩ | ⟨-, k, b, rem, -, -, -, hthk, -, -⟩
  · refine ⟨fin, ?_, hw⟩
    rw [List.perm_ext_iff_of_nodup hnd (List.nodup_range _)]
    intro j
    rw [List.mem_range]
    constructor
    · exact hlt j
    · intro hj
      by_contra hnot
      have h1 := hthr j
      rw [List.getElem?_eq_getElem hj] at h1
      simp only [Option.map_some', if_neg hnot] at h1
      have := hfin j _ h1
      simp [wrap] at this
  · have := hfin k _ hthk
    simp at this

theorem filterMap_range_getElem? {α : Type} (l : List α) :
    (List.range l.length).filterMap (fun j => l[j]?) = l := by
  induction l with
  | nil => rfl
  | cons a l ih =>
    rw [List.length_cons, List.range_succ_eq_map]
    simp only [List.filterMap_cons, List.getElem?_cons_zero, List.filterMap_map,
      Function.comp_def, Nat.succ_eq_add_one, List.getElem?_cons_succ]
    rw [ih]

theorem exited_apply (f : File) (st : Step) (w : World)
    (h : st.isWrite = true ∨ st = Step.acquire ∨ st = Step.release) :
    (st.apply f w).exited = w.exited := by
  cases st with
  | acquire => rfl
  | release => rfl
  | fileChar c =>
    simp only [Step.apply, File.Write]
    split_ifs <;> rfl
  | outChar c => rfl
  | exit code => simp [Step.isWrite] at h

theorem exited_applySteps (f : File) (steps : List Step) :
    ∀ w : World, (∀ st ∈ steps, st.isWrite = true ∨ st = Step.acquire ∨ st = Step.release) →
      (applySteps f steps w).exited = w.exited := by
  induction steps with
  | nil => intro w _; rfl
  | cons st rest ih =>
    intro w h
    rw [applySteps_cons, ih _ (fun x hx => h x (List.mem_cons_of_mem _ hx)),
      exited_apply f st w (h st (by simp))]

/-- No deadlock: while some goroutine has steps left, some goroutine can take
its next step. -/
theorem Serialized_progress (f : File) (happ : f.flag &&& O_APPEND ≠ 0)
    (calls : List (Env × List Value)) (w0 : World) (s : Conc) (hw0 : w0.exited = none)
    (hinv : Serialized f (calls.map printBody) w0 s) (hnot : s.finished = false) :
    ∃ i, i < calls.length ∧ (s.step f i).isSome = true := by
  obtain ⟨fin, hnd, hlt, hcase⟩ := hinv
  have hlt' : ∀ j ∈ fin, j < calls.length := fun j hj => by simpa using hlt j hj
  have hser := (serial_calls f happ calls fin w0 hlt').2.2
  rcases hcase with ⟨hl, hw, hthr⟩ | ⟨hl, k, b, rem, hbk, hkfin, hrem, hthk, heq, hothers⟩
  · have hex : s.world.exited = none := by rw [hw, hser, hw0]
    have hsome : ∃ (j : Nat) (p : List Step), s.threads[j]? = some p ∧ p ≠ [] := by
      by_contra hcon
      push_neg at hcon
      have : s.finished = true := (Conc.finished_iff s).2 hcon
      rw [this] at hnot; cases hnot
    obtain ⟨j, p, hp, hpne⟩ := hsome
    have h1 := hthr j
    rw [hp] at h1
    cases hbj : (calls.map printBody)[j]? with
    | none => rw [hbj] at h1; simp at h1
    | some b =>
      rw [hbj] at h1
      simp only [Option.map_some', Option.some.injEq] at h1
      by_cases hif : j ∈ fin
      · rw [if_pos hif] at h1; exact absurd h1 hpne
      · rw [if_neg hif] at h1
        have hjlt : j < calls.length := by
          rcases List.getElem?_eq_some_iff.1 hbj with ⟨h, -⟩
          simpa using h
        refine ⟨j, hjlt, ?_⟩
        simp [Conc.step, hex, hp, h1, wrap, hl]
  · have hex : s.world.exited = none := by
      have e1 := exited_applySteps f (rem ++ [Step.release]) s.world (by
        intro st hst
        rcases List.mem_append.1 hst with h | h
        · exact Or.inl (hrem st h)
        · simp only [List.mem_singleton] at h; exact Or.inr (Or.inr h))
      rw [heq] at e1
      obtain ⟨c, hc, rfl⟩ : ∃ c, calls[k]? = some c ∧ printBody c = b := by
        rw [getElem?_map_printBody] at hbk
        cases hck : calls[k]? with
        | none => rw [hck] at hbk; simp at hbk
        | some c => rw [hck] at hbk; exact ⟨c, rfl, by simpa using hbk⟩
      rw [(applySteps_wrap_printBody f happ c _).2.2, hser, hw0] at e1
      exact e1.symm
    have hklt : k < calls.length := by
      rcases List.getElem?_eq_some_iff.1 hbk with ⟨h, -⟩
      simpa using h
    refine ⟨k, hklt, ?_⟩
    cases rem with
    | nil => simp [Conc.step, hex, hthk, hl]
    | cons st0 rem' =>
      have hw1 : st0.isWrite = true := hrem st0 (by simp)
      have hna : st0 ≠ Step.acquire := by intro h; rw [h] at hw1; cases hw1
      have hnr : st0 ≠ Step.release := by intro h; rw [h] at hw1; cases hw1
      simp [Conc.step, hex, hthk, hna, hnr]

theorem newlines_append (a b : String) : newlines (a ++ b) = newlines a + newlines b := by
  simp [newlines, String.data_append]

theorem newlines_concat_records (order : List (Env × List Value))
    (h : ∀ c ∈ order, c.1.writeOk = true
      ∧ '\n' ∉ (stdHeader c.1.logNow ++ composedLine c.1 (.print c.2)).data) :
    newlines (concat (order.map fileRecordOf)) = order.length := by
  induction order with
  | nil => rfl
  | cons c rest ih =>
    have hc := h c (by simp)
    have hrec : newlines (fileRecordOf c) = 1 := by
      unfold fileRecordOf
      rw [if_pos hc.1]
      exact newlines_ensureNewline _ hc.2
    simp only [List.map_cons, concat, newlines_append, hrec, List.length_cons,
      ih (fun x hx => h x (List.mem_cons_of_mem _ hx))]
    omega

theorem sum_length_set (ts : List (List Step)) : ∀ (i : Nat) (st : Step) (rest : List Step),
    ts[i]? = some (st :: rest) →
      ((ts.set i rest).map List.length).sum + 1 = (ts.map List.length).sum := by
  induction ts with
  | nil => intro i st rest h; simp at h
  | cons t ts ih =>
    intro i st rest h
    cases i with
    | zero =>
      simp only [List.getElem?_cons_zero, Option.some.injEq] at h
      subst h
      simp only [List.set_cons_zero, List.map_cons, List.sum_cons, List.length_cons]
      omega
    | succ i =>
      simp only [List.getElem?_cons_succ] at h
      have := ih i st rest h
      simp only [List.set_cons_succ, List.map_cons, List.sum_cons]
      omega

theorem remaining_step (f : File) (i : Nat) (s s1 : Conc) (h : s.step f i = some s1) :
    s1.remaining + 1 = s.remaining := by
  unfold Conc.step at h
  split at h
  · cases h
  · split at h
    · rename_i st rest hth
      by_cases hblk : (st = Step.acquire ∧ s.locked = true) ∨ (st = Step.release ∧ s.locked = false)
      · rw [if_pos hblk] at h; cases h
      · rw [if_neg hblk] at h
        simp only [Option.some.injEq] at h
        subst h
        exact sum_length_set _ _ _ _ hth
    · cases h

/-- Every state the goroutines reach can be run on until all have finished. -/
theorem Serialized_complete (f : File) (happ : f.flag &&& O_APPEND ≠ 0)
    (calls : List (Env × List Value)) (w0 : World) (hw0 : w0.exited = none) :
    ∀ (n : Nat) (s : Conc), s.remaining = n → Serialized f (calls.map printBody) w0 s →
      ∃ (more : List Nat) (s1 : Conc), Conc.run f more s = some s1 ∧ s1.finished = true := by
  have hb : ∀ b ∈ calls.map printBody, ∀ st ∈ b, st.isWrite = true := by
    intro b hb st hst
    obtain ⟨c, -, rfl⟩ := List.mem_map.1 hb
    exact printBody_isWrite c st hst
  intro n
  induction n with
  | zero =>
    intro s hn hinv
    cases hfin : s.finished with
    | true => exact ⟨[], s, rfl, hfin⟩
    | false =>
      obtain ⟨i, -, hi⟩ := Serialized_progress f happ calls w0 s hw0 hinv hfin
      obtain ⟨s1, hs1⟩ := Option.isSome_iff_exists.1 hi
      have := remaining_step f i s s1 hs1
      omega
  | succ n ih =>
    intro s hn hinv
    cases hfin : s.finished with
    | true => exact ⟨[], s, rfl, hfin⟩
    | false =>
      obtain ⟨i, -, hi⟩ := Serialized_progress f happ calls w0 s hw0 hinv hfin
      obtain ⟨s1, hs1⟩ := Option.isSome_iff_exists.1 hi
      have hr := remaining_step f i s s1 hs1
      obtain ⟨more, s2, hrun, hf2⟩ := ih s1 (by omega)
        (Serialized_step f _ w0 s s1 i hb hinv hs1)
      exact ⟨i :: more, s2, by simp [Conc.run, hs1, hrun], hf2⟩

/-! ## Properties of the logger -/

/-- C1 (as stated, refuted): the logger `New` builds writes to the file, for
`Print("hi")`, the composed line behind a date and time of its own, while
the console gets the composed line alone. -/
theorem file_line_differs_from_console_line :
    (New sampleLib sampleOS sampleTime "app.log" sampleHost).1 = .ok sampleLogger
      ∧ (sampleLogger.Print sampleEnv [.str "hi"] sampleWorld).file
        = "2024/01/02 03:04:05 [2024-01-02 03:04:05] [main.go:92] hi\n"
      ∧ (sampleLogger.Print sampleEnv [.str "hi"] sampleWorld).stdout
        = "[2024-01-02 03:04:05] [main.go:92] hi\n"
      ∧ (sampleLogger.Print sampleEnv [.str "hi"] sampleWorld).file
        ≠ (sampleLogger.Print sampleEnv [.str "hi"] sampleWorld).stdout := by
  refine ⟨rfl, ?_, ?_, ?_⟩ <;> decide

/-- C1 (amended): for every logger built by `New`, every logging call and
every operand list, standard output receives the composed line
`[<timestamp>] [<file:line>] <message>` and a newline, and the log file is
handed the same composed line behind the header `YYYY/MM/DD HH:MM:SS ` that
the wrapped `log.Logger` (standard flags, empty prefix) renders from its own
clock reading, with a newline added unless the line already ends in one; the
file holds that record after a successful write. -/
theorem file_record_is_header_then_line (lib : Lib) (os : OS) (now : Time) (filename : String)
    (h : Host) (l : Logger) (hnew : (New lib os now filename h).1 = .ok l) (env : Env)
    (c : Call) (w : World) :
    (l.exec env c w).stdout = w.stdout ++ (composedLine env c ++ "\n")
      ∧ (l.exec env c w).trace
        = w.trace ++ [Effect.lock,
            Effect.fileWrite (ensureNewline (stdHeader env.logNow ++ composedLine env c))
              env.writeOk,
            Effect.stdout (composedLine env c ++ "\n"),
            if c.isFatal then Effect.exit 1 else Effect.unlock]
      ∧ (env.writeOk = true →
          (l.exec env c w).file
            = w.file ++ ensureNewline (stdHeader env.logNow ++ composedLine env c))
      ∧ composedLine env c
        = "[" ++ env.now.Format "2006-01-02 15:04:05" ++ "] ["
            ++ (Base env.self ++ ":" ++ intText c.site) ++ "] " ++ c.message env.lib := by
  obtain ⟨wd, -, -, -, -, rfl⟩ := New_ok_inv lib os now filename h l hnew
  refine ⟨exec_stdout _ _ _ _, ?_, ?_, rfl⟩
  · rw [exec_trace, loggerAt_output]
  · intro hw
    rw [exec_file _ _ _ _ (loggerAt_append _), loggerAt_output]
    simp [hw]

/-- C1 (amended) at a concrete input: `Error("disk", 3)` on the logger that
`New` builds for `app.log`. -/
theorem file_record_is_header_then_line_witness :
    (New sampleLib sampleOS sampleTime "app.log" sampleHost).1 = .ok sampleLogger
      ∧ (sampleLogger.exec sampleEnv (.error [.str "disk", .int 3]) sampleWorld).stdout
        = sampleWorld.stdout
            ++ (composedLine sampleEnv (.error [.str "disk", .int 3]) ++ "\n") :=
  ⟨rfl, (file_record_is_header_then_line sampleLib sampleOS sampleTime "app.log" sampleHost
    sampleLogger rfl sampleEnv (.error [.str "disk", .int 3]) sampleWorld).1⟩

/-- C2 (the code departs from the claim): `Print` renders its operands with
the one-verb format `%v`, so with no operand the message is the marker
`%!v(MISSING)` where `Sprint` gives the empty string, and with two operands it
is the first operand followed by an `%!(EXTRA ...)` marker where `Sprint`
gives both operands. -/
theorem print_message_differs_from_sprint :
    (sampleLogger.Print sampleEnv [] sampleWorld).stdout
        = "[2024-01-02 03:04:05] [main.go:92] %!v(MISSING)\n"
      ∧ sampleLogger.Sprint [] = ""
      ∧ (sampleLogger.Print sampleEnv [.str "a", .str "b"] sampleWorld).stdout
        = "[2024-01-02 03:04:05] [main.go:92] a%!(EXTRA string=b)\n"
      ∧ sampleLogger.Sprint [.str "a", .str "b"] = "ab"
      ∧ (sampleLogger.Fatal sampleEnv [] sampleWorld).stdout
        = "[2024-01-02 03:04:05] [main.go:112] %!v(MISSING)\n" := by
  decide

/-- C3 (the code departs from the claim): a call of `Print` from line 10 of
the user file `server.go` is tagged `main.go:92`, the place inside `Print`
where `formatLog` is called, and not `server.go:10`; whatever the stack of
the caller, the tag stays `main.go:92`.  Only the fallback holds as claimed:
with no frame at depth 2 the tag is `unknown:0`. -/
theorem print_tag_is_inside_logger :
    sampleEnv.callers = [⟨"/home/u/app/server.go", 10⟩]
      ∧ (sampleLogger.Print sampleEnv [.str "hi"] sampleWorld).stdout
        = "[2024-01-02 03:04:05] [main.go:92] hi\n"
      ∧ (sampleLogger.Print sampleEnv [.str "hi"] sampleWorld).stdout
        ≠ "[2024-01-02 03:04:05] [server.go:10] hi\n"
      ∧ (∀ callers : List Frame,
          (sampleLogger.Print { sampleEnv with callers := callers } [.str "hi"]
            sampleWorld).stdout = "[2024-01-02 03:04:05] [main.go:92] hi\n")
      ∧ getCallerInfo sampleLib sampleEnv.self [] = "unknown:0" := by
  refine ⟨rfl, by decide, by decide, fun callers => ?_, by decide⟩
  rw [Print_eq_exec, exec_stdout]
  show sampleWorld.stdout ++ (composedLine sampleEnv (.print [.str "hi"]) ++ "\n") = _
  decide

/-- C6 (as stated, refuted): for the filename `../x.log` `New` succeeds and
opens `/app/logs/x.log`, which is not inside the date directory
`/app/logs/2024-01-02` and is not named `../x.log`. -/
theorem New_file_outside_date_directory :
    New sampleLib sampleOS sampleTime "../x.log" sampleHost
        = (.ok (loggerAt "/app/logs/x.log"),
           ⟨["/app", "/app/logs", "/app/logs/2024-01-02"], [("/app/logs/x.log", "")],
            [Syscall.getwd, Syscall.mkdirAll "/app/logs" 0o755,
             Syscall.mkdirAll "/app/logs/2024-01-02" 0o755,
             Syscall.openFile "/app/logs/x.log" (O_APPEND ||| O_CREATE ||| O_WRONLY) 0o644]⟩)
      ∧ datePathOf "/app" sampleTime = "/app/logs/2024-01-02"
      ∧ "/app/logs/2024-01-02/".data.isPrefixOf "/app/logs/x.log".data = false
      ∧ Base "/app/logs/x.log" ≠ "../x.log" := by
  refine ⟨rfl, ?_, ?_, ?_⟩ <;> decide

/-- C6 (amended): for every filename that is empty or a single path element
(no separator, not `.` or `..`), when `New` succeeds the path it opens and
records is the logs directory of the working directory, then `/`, the
construction date as `YYYY-MM-DD`, then `/` and the name, the name being the
given filename or `application.log` for the empty one; that name is the base
name of the path, the date directory exists and the file exists afterwards.
For a cleaned working directory other than the root and `.` the logs
directory is the working directory followed by `/logs`. -/
theorem New_opens_file_in_date_directory (lib : Lib) (os : OS) (now : Time) (filename : String)
    (h : Host)
    (l : Logger) (hname : filename = "" ∨ Simple filename.data)
    (hnew : (New lib os now filename h).1 = .ok l) :
    ∃ wd, os.getwd = .ok wd
      ∧ l.filepath
        = logsDirOf wd ++ "/" ++ now.Format "2006-01-02" ++ "/" ++ fileName filename
      ∧ datePathOf wd now = logsDirOf wd ++ "/" ++ now.Format "2006-01-02"
      ∧ Base l.filepath = fileName filename
      ∧ (filename = "" → fileName filename = "application.log")
      ∧ (filename ≠ "" → fileName filename = filename)
      ∧ datePathOf wd now ∈ (New lib os now filename h).2.dirs
      ∧ l.filepath ∈ (New lib os now filename h).2.files.map Prod.fst
      ∧ (Clean wd = wd → wd ≠ "/" → wd ≠ "." → logsDirOf wd = wd ++ "/" ++ "logs") := by
  obtain ⟨wd, hg, hl, hd, ho, rfl⟩ := New_ok_inv lib os now filename h l hnew
  have hsimple := fileName_simple filename hname
  have hdate := Join_open (logsDirOf wd) (now.Format "2006-01-02") (logsDirOf_open wd)
    (Format_date_simple now)
  have hfull := Join_open (datePathOf wd now) (fileName filename) hdate.2 hsimple
  have hpath : fullPathOf wd now filename
      = logsDirOf wd ++ "/" ++ now.Format "2006-01-02" ++ "/" ++ fileName filename := by
    unfold fullPathOf
    rw [hfull.1]
    unfold datePathOf
    rw [hdate.1]
  refine ⟨wd, hg, hpath, hdate.1, ?_, ?_, ?_, ?_, ?_, ?_⟩
  · show Base (fullPathOf wd now filename) = fileName filename
    rw [hpath]
    exact Base_append_simple _ _ hsimple.1 hsimple.2.1
  · intro he; simp [fileName, he]
  · intro he; simp [fileName, he]
  · rw [New_ok lib os now filename h wd hg hl hd ho]
    exact mem_withDir _ _
  · rw [New_ok lib os now filename h wd hg hl hd ho]
    exact mem_withFile _ _
  · intro hc hroot hdot
    exact (Join_open wd "logs" (OpenPath_of_clean wd hc hroot hdot) (by decide)).1

/-- C6 (amended) at a concrete input: the name `app.log` under `/app` on
2 January 2024. -/
theorem New_opens_file_in_date_directory_witness :
    Simple "app.log".data
      ∧ (New sampleLib sampleOS sampleTime "app.log" sampleHost).1 = .ok sampleLogger
      ∧ ∃ wd, sampleOS.getwd = .ok wd
        ∧ sampleLogger.filepath
          = logsDirOf wd ++ "/" ++ sampleTime.Format "2006-01-02" ++ "/" ++ fileName "app.log"
        ∧ datePathOf wd sampleTime = logsDirOf wd ++ "/" ++ sampleTime.Format "2006-01-02"
        ∧ Base sampleLogger.filepath = fileName "app.log"
        ∧ ("app.log" = "" → fileName "app.log" = "application.log")
        ∧ ("app.log" ≠ "" → fileName "app.log" = "app.log")
        ∧ datePathOf wd sampleTime ∈ (New sampleLib sampleOS sampleTime "app.log" sampleHost).2.dirs
        ∧ sampleLogger.filepath
          ∈ (New sampleLib sampleOS sampleTime "app.log" sampleHost).2.files.map Prod.fst
        ∧ (Clean wd = wd → wd ≠ "/" → wd ≠ "." → logsDirOf wd = wd ++ "/" ++ "logs") :=
  ⟨by decide, rfl,
   New_opens_file_in_date_directory sampleLib sampleOS sampleTime "app.log" sampleHost sampleLogger
     (Or.inr (by decide)) rfl⟩

/-- C7: `New` returns an error exactly when resolving the working directory,
creating the logs directory, creating the date directory or opening the file
fails.  The message names the failed step and ends with the message of the
underlying error.  After a failed step no later system call is issued: no
file is opened or created when a directory step fails, and none is created
when the open fails; directories created before the failure stay. -/
theorem New_fails_exactly_when_a_step_fails (lib : Lib) (os : OS) (now : Time) (filename : String)
    (h : Host) :
    ((∃ msg, (New lib os now filename h).1 = .error msg) ↔
        ((∃ e, os.getwd = .error e) ∨
          ∃ wd, os.getwd = .ok wd ∧
            (os.mkdirAll (logsDirOf wd) ≠ none ∨ os.mkdirAll (datePathOf wd now) ≠ none
              ∨ os.openFile (fullPathOf wd now filename) ≠ none)))
      ∧ (∀ e, os.getwd = .error e →
          (New lib os now filename h).1 = .error ("Failed to get working directory: " ++ e)
            ∧ (New lib os now filename h).2.calls = h.calls ++ [Syscall.getwd]
            ∧ (New lib os now filename h).2.dirs = h.dirs
            ∧ (New lib os now filename h).2.files = h.files)
      ∧ (∀ wd e, os.getwd = .ok wd → os.mkdirAll (logsDirOf wd) = some e →
          (New lib os now filename h).1 = .error ("Error creating logs directory: " ++ e)
            ∧ (New lib os now filename h).2.calls
              = h.calls ++ [Syscall.getwd, Syscall.mkdirAll (logsDirOf wd) 0o755]
            ∧ (New lib os now filename h).2.dirs = h.dirs
            ∧ (New lib os now filename h).2.files = h.files)
      ∧ (∀ wd e, os.getwd = .ok wd → os.mkdirAll (logsDirOf wd) = none →
          os.mkdirAll (datePathOf wd now) = some e →
          (New lib os now filename h).1 = .error ("Failed to create date directory: " ++ e)
            ∧ (New lib os now filename h).2.calls
              = h.calls ++ [Syscall.getwd, Syscall.mkdirAll (logsDirOf wd) 0o755,
                  Syscall.mkdirAll (datePathOf wd now) 0o755]
            ∧ logsDirOf wd ∈ (New lib os now filename h).2.dirs
            ∧ h.dirs ⊆ (New lib os now filename h).2.dirs
            ∧ (New lib os now filename h).2.files = h.files)
      ∧ (∀ wd e, os.getwd = .ok wd → os.mkdirAll (logsDirOf wd) = none →
          os.mkdirAll (datePathOf wd now) = none →
          os.openFile (fullPathOf wd now filename) = some e →
          (New lib os now filename h).1 = .error ("Failed to open log file: " ++ e)
            ∧ (New lib os now filename h).2.calls
              = h.calls ++ [Syscall.getwd, Syscall.mkdirAll (logsDirOf wd) 0o755,
                  Syscall.mkdirAll (datePathOf wd now) 0o755,
                  Syscall.openFile (fullPathOf wd now filename)
                    (O_APPEND ||| O_CREATE ||| O_WRONLY) 0o644]
            ∧ logsDirOf wd ∈ (New lib os now filename h).2.dirs
            ∧ datePathOf wd now ∈ (New lib os now filename h).2.dirs
            ∧ h.dirs ⊆ (New lib os now filename h).2.dirs
            ∧ (New lib os now filename h).2.files = h.files) := by
  refine ⟨?_, ?_, ?_, ?_, ?_⟩
  · constructor
    · rintro ⟨msg, hmsg⟩
      cases hg : os.getwd with
      | error e => exact Or.inl ⟨e, rfl⟩
      | ok wd =>
        refine Or.inr ⟨wd, rfl, ?_⟩
        by_contra hcon
        push_neg at hcon
        obtain ⟨hl, hd, ho⟩ := hcon
        rw [New_ok lib os now filename h wd hg hl hd ho] at hmsg
        cases hmsg
    · rintro (⟨e, hg⟩ | ⟨wd, hg, hstep⟩)
      · exact ⟨_, by rw [New_getwd_error lib os now filename h e hg]⟩
      · cases hl : os.mkdirAll (logsDirOf wd) with
        | some e => exact ⟨_, by rw [New_logs_error lib os now filename h wd e hg hl]⟩
        | none =>
          cases hd : os.mkdirAll (datePathOf wd now) with
          | some e => exact ⟨_, by rw [New_date_error lib os now filename h wd e hg hl hd]⟩
          | none =>
            cases ho : os.openFile (fullPathOf wd now filename) with
            | some e => exact ⟨_, by rw [New_open_error lib os now filename h wd e hg hl hd ho]⟩
            | none => simp [hl, hd, ho] at hstep
  · intro e hg
    rw [New_getwd_error lib os now filename h e hg]
    exact ⟨rfl, rfl, rfl, rfl⟩
  · intro wd e hg hl
    rw [New_logs_error lib os now filename h wd e hg hl]
    exact ⟨rfl, rfl, rfl, rfl⟩
  · intro wd e hg hl hd
    rw [New_date_error lib os now filename h wd e hg hl hd]
    exact ⟨rfl, rfl, mem_withDir _ _, subset_withDir _ _, rfl⟩
  · intro wd e hg hl hd ho
    rw [New_open_error lib os now filename h wd e hg hl hd ho]
    exact ⟨rfl, rfl, subset_withDir _ _ (mem_withDir _ _), mem_withDir _ _,
      fun x hx => subset_withDir _ _ (subset_withDir _ _ hx), rfl⟩

/-- C7 at a concrete input: the date directory cannot be created; the
error names that step, the logs directory stays, no file is opened. -/
theorem New_fails_exactly_when_a_step_fails_witness :
    (New sampleLib denyingOS sampleTime "app.log" sampleHost).1
        = .error ("Failed to create date directory: "
            ++ "mkdir /app/logs/2024-01-02: permission denied")
      ∧ (New sampleLib denyingOS sampleTime "app.log" sampleHost).2.calls
        = sampleHost.calls ++ [Syscall.getwd, Syscall.mkdirAll (logsDirOf "/app") 0o755,
            Syscall.mkdirAll (datePathOf "/app" sampleTime) 0o755]
      ∧ logsDirOf "/app" ∈ (New sampleLib denyingOS sampleTime "app.log" sampleHost).2.dirs
      ∧ sampleHost.dirs ⊆ (New sampleLib denyingOS sampleTime "app.log" sampleHost).2.dirs
      ∧ (New sampleLib denyingOS sampleTime "app.log" sampleHost).2.files = sampleHost.files :=
  (New_fails_exactly_when_a_step_fails sampleLib denyingOS sampleTime "app.log" sampleHost).2.2.2.1
    "/app" "mkdir /app/logs/2024-01-02: permission denied" rfl rfl rfl

/-- C8 (as stated, refuted): what `Fatal("x")` writes to the log file is
not the composed line but the record of the file logger, the composed line
behind a date and time of its own. -/
theorem fatal_writes_logger_record :
    (sampleLogger.Fatal sampleEnv [.str "x"] sampleWorld).trace
        = [Effect.lock,
           Effect.fileWrite "2024/01/02 03:04:05 [2024-01-02 03:04:05] [main.go:112] x\n" true,
           Effect.stdout "[2024-01-02 03:04:05] [main.go:112] x\n",
           Effect.exit 1]
      ∧ composedLine sampleEnv (.fatal [.str "x"]) = "[2024-01-02 03:04:05] [main.go:112] x"
      ∧ (sampleLogger.Fatal sampleEnv [.str "x"] sampleWorld).file
        ≠ sampleWorld.file ++ composedLine sampleEnv (.fatal [.str "x"]) ++ "\n"
      ∧ (sampleLogger.Fatal sampleEnv [.str "x"] sampleWorld).file
        ≠ sampleWorld.file ++ composedLine sampleEnv (.fatal [.str "x"]) := by
  refine ⟨?_, ?_, ?_, ?_⟩ <;> decide

/-- C8 (amended): on a logger built by `New`, for every operand list and
format, `Fatal` and `Fatalf` take the lock, hand to the log file the record
of the composed line (the logger header `YYYY/MM/DD HH:MM:SS `, the composed
line, a newline unless the line ends in one), print the composed line and a
newline to standard output, and then exit with status 1, in this order and
whether or not the write succeeded; the file gains the record exactly when
the write succeeds; the exit is the last effect of the process: no later call
of the program runs. -/
theorem fatal_writes_prints_then_exits (lib : Lib) (os : OS) (now : Time) (filename : String)
    (h : Host) (l : Logger) (hnew : (New lib os now filename h).1 = .ok l) (env : Env)
    (format : String) (v : List Value) (w : World) (rest : List (Env × Call)) :
    (l.Fatal env v w).trace
        = w.trace ++ effectsWith env.logNow env.writeOk
            (lineHead env.now (Base env.self ++ ":112") ++ Sprintf env.lib "%v" v)
            (Effect.exit 1)
      ∧ (l.Fatal env v w).exited = some 1
      ∧ (l.Fatal env v w).file
        = (if env.writeOk then
             w.file ++ ensureNewline (stdHeader env.logNow
               ++ (lineHead env.now (Base env.self ++ ":112") ++ Sprintf env.lib "%v" v))
           else w.file)
      ∧ (l.Fatal env v w).stdout
        = w.stdout ++ (lineHead env.now (Base env.self ++ ":112") ++ Sprintf env.lib "%v" v
            ++ "\n")
      ∧ l.run ((env, .fatal v) :: rest) w = l.Fatal env v w
      ∧ (l.Fatalf env format v w).trace
        = w.trace ++ effectsWith env.logNow env.writeOk
            (lineHead env.now (Base env.self ++ ":123") ++ Sprintf env.lib format v)
            (Effect.exit 1)
      ∧ (l.Fatalf env format v w).exited = some 1
      ∧ (l.Fatalf env format v w).file
        = (if env.writeOk then
             w.file ++ ensureNewline (stdHeader env.logNow
               ++ (lineHead env.now (Base env.self ++ ":123") ++ Sprintf env.lib format v))
           else w.file)
      ∧ (l.Fatalf env format v w).stdout
        = w.stdout ++ (lineHead env.now (Base env.self ++ ":123") ++ Sprintf env.lib format v
            ++ "\n")
      ∧ l.run ((env, .fatalf format v) :: rest) w = l.Fatalf env format v w := by
  obtain ⟨wd, -, -, -, -, rfl⟩ := New_ok_inv lib os now filename h l hnew
  refine ⟨?_, ?_, ?_, ?_, ?_, ?_, ?_, ?_, ?_, ?_⟩
  · rw [Fatal_eq_exec, exec_trace, loggerAt_output, composedLine_fatal]
    simp [effectsWith, Call.isFatal]
  · rw [Fatal_eq_exec, exec_exited]; simp [Call.isFatal]
  · rw [Fatal_eq_exec, exec_file _ _ _ _ (loggerAt_append _), loggerAt_output,
      composedLine_fatal]
  · rw [Fatal_eq_exec, exec_stdout, composedLine_fatal]
  · rw [Fatal_eq_exec]; simp [Logger.run, exec_exited, Call.isFatal]
  · rw [Fatalf_eq_exec, exec_trace, loggerAt_output, composedLine_fatalf]
    simp [effectsWith, Call.isFatal]
  · rw [Fatalf_eq_exec, exec_exited]; simp [Call.isFatal]
  · rw [Fatalf_eq_exec, exec_file _ _ _ _ (loggerAt_append _), loggerAt_output,
      composedLine_fatalf]
  · rw [Fatalf_eq_exec, exec_stdout, composedLine_fatalf]
  · rw [Fatalf_eq_exec]; simp [Logger.run, exec_exited, Call.isFatal]

/-- C8 (amended) at a concrete input: `Fatal("x")` with a working and with a
failing log file, followed by a `Print` that never runs. -/
theorem fatal_writes_prints_then_exits_witness :
    (New sampleLib sampleOS sampleTime "app.log" sampleHost).1 = .ok sampleLogger
      ∧ (sampleLogger.Fatal sampleEnv [.str "x"] sampleWorld).trace
        = sampleWorld.trace ++ effectsWith sampleEnv.logNow sampleEnv.writeOk
            (lineHead sampleEnv.now (Base sampleEnv.self ++ ":112")
              ++ Sprintf sampleEnv.lib "%v" [.str "x"]) (Effect.exit 1)
      ∧ sampleLogger.run [(sampleEnv, .fatal [.str "x"]), (sampleEnv, .print [.str "y"])]
          sampleWorld
        = ⟨"2024/01/02 03:04:05 [2024-01-02 03:04:05] [main.go:112] x\n", 58,
           "[2024-01-02 03:04:05] [main.go:112] x\n",
           [Effect.lock,
            Effect.fileWrite "2024/01/02 03:04:05 [2024-01-02 03:04:05] [main.go:112] x\n" true,
            Effect.stdout "[2024-01-02 03:04:05] [main.go:112] x\n",
            Effect.exit 1],
           some 1⟩
      ∧ sampleLogger.run [(failingEnv, .fatal [.str "x"]), (sampleEnv, .print [.str "y"])]
          sampleWorld
        = ⟨"", 0, "[2024-01-02 03:04:05] [main.go:112] x\n",
           [Effect.lock,
            Effect.fileWrite "2024/01/02 03:04:05 [2024-01-02 03:04:05] [main.go:112] x\n" false,
            Effect.stdout "[2024-01-02 03:04:05] [main.go:112] x\n",
            Effect.exit 1],
           some 1⟩ :=
  ⟨rfl,
   (fatal_writes_prints_then_exits sampleLib sampleOS sampleTime "app.log" sampleHost
     sampleLogger rfl sampleEnv "%v" [.str "x"] sampleWorld []).1,
   by decide, by decide⟩

/-- C9 (as stated, refuted): after `Print("x\ny"); Print("z")` on an empty
log file the file is not two newline-terminated lines, the first call alone
contributing two lines; and after two prints whose writes fail the file is
still what it was. -/
theorem two_prints_three_lines :
    (¬ ∃ la lb : String, '\n' ∉ la.data ∧ '\n' ∉ lb.data ∧
        (sampleLogger.Print sampleEnv [.str "z"]
          (sampleLogger.Print sampleEnv [.str "x\ny"] sampleWorld)).file
          = sampleWorld.file ++ la ++ "\n" ++ lb ++ "\n")
      ∧ (sampleLogger.Print sampleEnv [.str "z"]
          (sampleLogger.Print sampleEnv [.str "x\ny"] sampleWorld)).file
        = "2024/01/02 03:04:05 [2024-01-02 03:04:05] [main.go:92] x\ny\n"
            ++ "2024/01/02 03:04:05 [2024-01-02 03:04:05] [main.go:92] z\n"
      ∧ (sampleLogger.Print failingEnv [.str "b"]
          (sampleLogger.Print failingEnv [.str "a"] sampleWorld)).file = sampleWorld.file := by
  refine ⟨?_, by decide, by decide⟩
  rintro ⟨la, lb, ha, hb, h⟩
  have hc := congrArg newlines h
  have hl : newlines ((sampleLogger.Print sampleEnv [.str "z"]
      (sampleLogger.Print sampleEnv [.str "x\ny"] sampleWorld)).file) = 3 := by decide
  rw [hl] at hc
  simp [newlines, sampleWorld, String.data_append, List.count_eq_zero_of_not_mem ha,
    List.count_eq_zero_of_not_mem hb] at hc

/-- C9 (amended): `New` opens the log file for appending and without
truncation, so for every prior content of the file at the path of the logger
the file holds that content when `New` returns; for every two operand lists
`a` and `b`, when both writes succeed the file after `Print(a); Print(b)` is
the content before the calls followed by the record of `a` and then the
record of `b` (logger header, composed line, newline); each record ends in a
newline, and is exactly one line whenever the header and the composed line
contain no newline of their own. -/
theorem two_prints_append_two_records (lib : Lib) (os : OS) (now : Time) (filename : String)
    (h : Host) (l : Logger) (hnew : (New lib os now filename h).1 = .ok l) (e1 e2 : Env)
    (a b : List Value) (h1 : e1.writeOk = true) (h2 : e2.writeOk = true) :
    (World.start (New lib os now filename h).2 l.file).file = h.content l.filepath
      ∧ (l.Print e2 b (l.Print e1 a (World.start (New lib os now filename h).2 l.file))).file
        = h.content l.filepath
            ++ ensureNewline (stdHeader e1.logNow ++ composedLine e1 (.print a))
            ++ ensureNewline (stdHeader e2.logNow ++ composedLine e2 (.print b))
      ∧ (∀ w : World, (l.Print e2 b (l.Print e1 a w)).file
          = w.file ++ ensureNewline (stdHeader e1.logNow ++ composedLine e1 (.print a))
              ++ ensureNewline (stdHeader e2.logNow ++ composedLine e2 (.print b)))
      ∧ (ensureNewline (stdHeader e1.logNow ++ composedLine e1 (.print a))).data.getLast?
        = some '\n'
      ∧ (ensureNewline (stdHeader e2.logNow ++ composedLine e2 (.print b))).data.getLast?
        = some '\n'
      ∧ ('\n' ∉ (stdHeader e1.logNow ++ composedLine e1 (.print a)).data →
          newlines (ensureNewline (stdHeader e1.logNow ++ composedLine e1 (.print a))) = 1)
      ∧ ('\n' ∉ (stdHeader e2.logNow ++ composedLine e2 (.print b)).data →
          newlines (ensureNewline (stdHeader e2.logNow ++ composedLine e2 (.print b))) = 1)
      ∧ composedLine e1 (.print a)
        = lineHead e1.now (Base e1.self ++ ":92") ++ Sprintf e1.lib "%v" a := by
  obtain ⟨wd, hg, hl, hd, ho, rfl⟩ := New_ok_inv lib os now filename h l hnew
  have hfile : ∀ w : World, ((loggerAt (fullPathOf wd now filename)).Print e2 b
      ((loggerAt (fullPathOf wd now filename)).Print e1 a w)).file
        = w.file ++ ensureNewline (stdHeader e1.logNow ++ composedLine e1 (.print a))
            ++ ensureNewline (stdHeader e2.logNow ++ composedLine e2 (.print b)) := by
    intro w
    rw [Print_eq_exec, Print_eq_exec, exec_file _ _ _ _ (loggerAt_append _),
      exec_file _ _ _ _ (loggerAt_append _), loggerAt_output, loggerAt_output]
    simp [h1, h2, String.append_assoc]
  have hstart : (World.start (New lib os now filename h).2
      (loggerAt (fullPathOf wd now filename)).file).file
        = h.content (loggerAt (fullPathOf wd now filename)).filepath := by
    rw [New_ok lib os now filename h wd hg hl hd ho]
    exact content_withFile _ _ _ _
  refine ⟨hstart, ?_, hfile, ensureNewline_last _, ensureNewline_last _,
    newlines_ensureNewline _, newlines_ensureNewline _, composedLine_print _ _⟩
  rw [hfile, hstart]

/-- C9 (amended) at a concrete input: `New` on a file that holds the line
`old`, then `Print("a"); Print("b")`. -/
theorem two_prints_append_two_records_witness :
    (New sampleLib sampleOS sampleTime "app.log" usedHost).1 = .ok sampleLogger
      ∧ sampleEnv.writeOk = true
      ∧ usedHost.content sampleLogger.filepath = "old\n"
      ∧ (sampleLogger.Print sampleEnv [.str "b"] (sampleLogger.Print sampleEnv [.str "a"]
          (World.start (New sampleLib sampleOS sampleTime "app.log" usedHost).2
            sampleLogger.file))).file
        = usedHost.content sampleLogger.filepath
            ++ ensureNewline (stdHeader sampleEnv.logNow
                ++ composedLine sampleEnv (.print [.str "a"]))
            ++ ensureNewline (stdHeader sampleEnv.logNow
                ++ composedLine sampleEnv (.print [.str "b"]))
      ∧ (sampleLogger.Print sampleEnv [.str "b"] (sampleLogger.Print sampleEnv [.str "a"]
          (World.start (New sampleLib sampleOS sampleTime "app.log" usedHost).2
            sampleLogger.file))).file
        = "old\n2024/01/02 03:04:05 [2024-01-02 03:04:05] [main.go:92] a\n"
            ++ "2024/01/02 03:04:05 [2024-01-02 03:04:05] [main.go:92] b\n" :=
  ⟨rfl, rfl, by decide,
   (two_prints_append_two_records sampleLib sampleOS sampleTime "app.log" usedHost sampleLogger
     rfl sampleEnv sampleEnv [.str "a"] [.str "b"] rfl rfl).2.1,
   by decide⟩

set_option maxRecDepth 1000000

end LogLogger
